import Mathlib

/-!
Verification development for the clinical-data-pipeline repository.

Shallow embedding of the compound-to-trial linkage subsystem:
JSON payload model, trial-ID text mining, the PUG-View CID-to-NCT
fallback-chain resolver, the SDQ web fallback, the fuzzy
compound-trial linker, the streaming document-collection loop, the
shard merge, and the history tracker.  Python dicts are modelled as
association lists (first occurrence wins, mirroring unique-key dicts);
Python sets of strings are modelled as sorted duplicate-free lists, so
that the source's final `sorted(...)` is the identity on the
representation.  Raised exceptions are modelled with `Except`/`Option`.
-/

namespace ClinicalData

/-- JSON-like values (objects keep insertion order, as Python dicts do). -/
inductive Json where
  | null : Json
  | bool (b : Bool) : Json
  | num (n : Int) : Json
  | str (s : String) : Json
  | arr (items : List Json) : Json
  | obj (fields : List (String × Json)) : Json

mutual
def Json.decEq : (a b : Json) → Decidable (a = b)
  | .null, .null => isTrue rfl
  | .bool a, .bool b =>
    if h : a = b then isTrue (h ▸ rfl)
    else isFalse (fun hh => h (Json.bool.inj hh))
  | .num a, .num b =>
    if h : a = b then isTrue (h ▸ rfl)
    else isFalse (fun hh => h (Json.num.inj hh))
  | .str a, .str b =>
    if h : a = b then isTrue (h ▸ rfl)
    else isFalse (fun hh => h (Json.str.inj hh))
  | .arr xs, .arr ys =>
    match Json.decEqItems xs ys with
    | isTrue h => isTrue (h ▸ rfl)
    | isFalse h => isFalse (fun hh => h (Json.arr.inj hh))
  | .obj xs, .obj ys =>
    match Json.decEqFields xs ys with
    | isTrue h => isTrue (h ▸ rfl)
    | isFalse h => isFalse (fun hh => h (Json.obj.inj hh))
  | .null, .bool _ | .null, .num _ | .null, .str _ | .null, .arr _ | .null, .obj _
  | .bool _, .null | .bool _, .num _ | .bool _, .str _ | .bool _, .arr _ | .bool _, .obj _
  | .num _, .null | .num _, .bool _ | .num _, .str _ | .num _, .arr _ | .num _, .obj _
  | .str _, .null | .str _, .bool _ | .str _, .num _ | .str _, .arr _ | .str _, .obj _
  | .arr _, .null | .arr _, .bool _ | .arr _, .num _ | .arr _, .str _ | .arr _, .obj _
  | .obj _, .null | .obj _, .bool _ | .obj _, .num _ | .obj _, .str _ | .obj _, .arr _ =>
    isFalse (by intro h; exact Json.noConfusion h)

def Json.decEqItems : (xs ys : List Json) → Decidable (xs = ys)
  | [], [] => isTrue rfl
  | [], _ :: _ => isFalse (by intro h; exact List.noConfusion h)
  | _ :: _, [] => isFalse (by intro h; exact List.noConfusion h)
  | x :: xs, y :: ys =>
    match Json.decEq x y, Json.decEqItems xs ys with
    | isTrue h1, isTrue h2 => isTrue (by rw [h1, h2])
    | isFalse h1, _ => isFalse (by intro hh; exact h1 (List.cons.inj hh).1)
    | isTrue _, isFalse h2 => isFalse (by intro hh; exact h2 (List.cons.inj hh).2)

def Json.decEqFields : (xs ys : List (String × Json)) → Decidable (xs = ys)
  | [], [] => isTrue rfl
  | [], _ :: _ => isFalse (by intro h; exact List.noConfusion h)
  | _ :: _, [] => isFalse (by intro h; exact List.noConfusion h)
  | (k1, v1) :: xs, (k2, v2) :: ys =>
    if h1 : k1 = k2 then
      match Json.decEq v1 v2, Json.decEqFields xs ys with
      | isTrue h2, isTrue h3 => isTrue (by rw [h1, h2, h3])
      | isFalse h2, _ =>
        isFalse (by intro hh; exact h2 (congrArg Prod.snd (List.cons.inj hh).1))
      | isTrue _, isFalse h3 => isFalse (by intro hh; exact h3 (List.cons.inj hh).2)
    else
      isFalse (by intro hh; exact h1 (congrArg Prod.fst (List.cons.inj hh).1))
end

instance : DecidableEq Json := Json.decEq

/-- `d.get(k)`: first binding of `k` in an association list. -/
def dictGet (fields : List (String × Json)) (k : String) : Option Json :=
  match fields with
  | [] => none
  | (k', v) :: rest => if k' = k then some v else dictGet rest k

/-- Membership test for a key, `k in d` in Python. -/
def dictHas (fields : List (String × Json)) (k : String) : Bool :=
  (dictGet fields k).isSome

mutual
/-- `_walk(obj)`: every value reachable strictly below the root, in
document order (dict values and list items, recursively).  The root
itself is not yielded, matching the Python generator. -/
def Json.walk : Json → List Json
  | .obj fields => walkFields fields
  | .arr items => walkItems items
  | _ => []

def walkFields : List (String × Json) → List Json
  | [] => []
  | (_, v) :: rest => v :: v.walk ++ walkFields rest

def walkItems : List Json → List Json
  | [] => []
  | v :: rest => v :: v.walk ++ walkItems rest
end

/-! ### String utilities shared by the extractors -/

/-- Python regex word character (`\w`), ASCII reading: letters, digits, underscore. -/
def isWordChar (c : Char) : Bool := c.isAlphanum || c = '_'

/-- Case-insensitive match of the literal `lit` (given in lowercase) at the
head of `cs`; returns the remaining characters on success. -/
def matchLitCI : List Char → List Char → Option (List Char)
  | [], cs => some cs
  | _ :: _, [] => none
  | p :: ps, c :: cs => if c.toLower = p then matchLitCI ps cs else none

/-- Substring test on character lists (`needle in hay`), case-insensitive
in the haystack for a lowercase needle. -/
def charsContain (needle : List Char) : List Char → Bool
  | [] => needle.isEmpty
  | c :: cs => (matchLitCI needle (c :: cs)).isSome || charsContain needle cs

/-- `needle in hay.lower()` for a lowercase needle. -/
def containsCI (hay : String) (needle : String) : Bool :=
  charsContain needle.data hay.data

/-- Structural code-point lexicographic comparison (Python string `<`);
kernel-computable, unlike `String.decidableLT`. -/
def charsLt : List Char → List Char → Bool
  | _, [] => false
  | [], _ :: _ => true
  | a :: as, b :: bs => a < b || (a = b && charsLt as bs)

def strLt (a b : String) : Bool := charsLt a.data b.data

theorem charsLt_iff (as : List Char) : ∀ bs, charsLt as bs = true ↔ as < bs := by
  induction as with
  | nil =>
    intro bs
    cases bs with
    | nil =>
      simp only [charsLt, Bool.false_eq_true, false_iff]
      intro h; cases h
    | cons b bs =>
      simp only [charsLt, true_iff]
      exact List.Lex.nil
  | cons a as ih =>
    intro bs
    cases bs with
    | nil =>
      simp only [charsLt, Bool.false_eq_true, false_iff]
      intro h; cases h
    | cons b bs =>
      simp only [charsLt, Bool.or_eq_true, Bool.and_eq_true, decide_eq_true_eq, ih]
      constructor
      · rintro (h | ⟨heq, hlt⟩)
        · exact List.Lex.rel h
        · subst heq
          exact List.Lex.cons hlt
      · intro h
        cases h with
        | cons htl => exact Or.inr ⟨rfl, htl⟩
        | rel h => exact Or.inl h

theorem strLt_iff (a b : String) : strLt a b = true ↔ a < b := by
  rw [String.lt_iff_toList_lt]
  exact charsLt_iff a.data b.data

/-! ### Trial-ID pattern mining

`NCT_RE = re.compile(r"\bNCT\d{8}\b", flags=re.IGNORECASE)` and
`{m.group(0).upper() for m in NCT_RE.finditer(text)}`.  A match needs a
non-word character (or the string edge) on both sides; because every
character of a match is a word character, matches can never overlap, so
scanning every position yields exactly the `finditer` match set. -/

/-- The trial-ID shape produced by the miner: the uppercase `NCT`
registry marker followed by exactly eight ASCII digits. -/
def isNctIdB (s : String) : Bool :=
  match s.data with
  | 'N' :: 'C' :: 'T' :: ds => ds.length = 8 && ds.all Char.isDigit
  | _ => false

def isNctId (s : String) : Prop := isNctIdB s = true

instance (s : String) : Decidable (isNctId s) := by
  unfold isNctId; infer_instance

/-- The trailing `\b`: next character absent or not a word character. -/
def boundaryOk : List Char → Bool
  | [] => true
  | ch :: _ => !(isWordChar ch)

/-- Attempt `NCT\d{8}\b` (case-insensitive) at the head of the stream;
returns the eight digit characters on success. -/
def nctMatchAt : List Char → Option (List Char)
  | c0 :: c1 :: c2 :: rest =>
    if c0.toLower = 'n' && c1.toLower = 'c' && c2.toLower = 't' then
      let digits := rest.take 8
      if digits.length = 8 && digits.all Char.isDigit && boundaryOk (rest.drop 8) then
        some digits
      else none
    else none
  | _ => none

/-- All uppercased trial IDs matched in a character stream; the Bool
argument records whether the previous character was a word character
(for the leading `\b`). -/
def nctIdsAux : Bool → List Char → List String
  | _, [] => []
  | true, c :: rest => nctIdsAux (isWordChar c) rest
  | false, c :: rest =>
    match nctMatchAt (c :: rest) with
    | some digits => String.mk ('N' :: 'C' :: 'T' :: digits) :: nctIdsAux (isWordChar c) rest
    | none => nctIdsAux (isWordChar c) rest

/-- Raw (possibly duplicated) list of uppercased trial IDs in a text. -/
def nctIdsInText (s : String) : List String := nctIdsAux false s.data

/-! ### Sorted string sets

Python `set[str]` values, represented as strictly sorted lists so that
the source's `sorted(the_set)` is the identity on the representation. -/

/-- Insert into a strictly sorted duplicate-free list. -/
def setInsert (s : String) : List String → List String
  | [] => [s]
  | t :: rest =>
    if s = t then t :: rest
    else if strLt s t then s :: t :: rest
    else t :: setInsert s rest

/-- Union of a sorted set with an arbitrary list of strings. -/
def strSetUnion (acc : List String) (xs : List String) : List String :=
  xs.foldl (fun a s => setInsert s a) acc

/-- `sorted(set(xs))`. -/
def sortedSetOf (xs : List String) : List String := strSetUnion [] xs

/-- `_extract_nct_ids_from_text`: the set of uppercased trial IDs. -/
def extract_nct_ids_from_text (s : String) : List String :=
  sortedSetOf (nctIdsInText s)

theorem setInsert_mem {a b : String} {l : List String} :
    b ∈ setInsert a l ↔ b = a ∨ b ∈ l := by
  induction l with
  | nil => simp [setInsert]
  | cons t rest ih =>
    rw [setInsert]
    split
    next h1 => subst h1; simp only [List.mem_cons]; tauto
    next h1 =>
      split
      next h2 => simp only [List.mem_cons]
      next h2 => simp only [List.mem_cons, ih]; tauto

theorem setInsert_sorted {a : String} {l : List String}
    (h : l.Sorted (· < ·)) : (setInsert a l).Sorted (· < ·) := by
  induction l with
  | nil => simp [setInsert]
  | cons t rest ih =>
    rcases List.sorted_cons.mp h with ⟨ht, hrest⟩
    rw [setInsert]
    split
    next h1 => subst h1; exact h
    next h1 =>
      split
      next h2 =>
        have h2lt : a < t := (strLt_iff a t).mp h2
        refine List.sorted_cons.mpr ⟨?_, h⟩
        intro b hb
        rcases List.mem_cons.mp hb with hb | hb
        · exact hb ▸ h2lt
        · exact lt_trans h2lt (ht b hb)
      next h2 =>
        have hnlt : ¬ a < t := fun hlt => h2 ((strLt_iff a t).mpr hlt)
        have hta : t < a := lt_of_le_of_ne (not_lt.mp hnlt) (Ne.symm h1)
        refine List.sorted_cons.mpr ⟨?_, ih hrest⟩
        intro b hb
        rcases setInsert_mem.mp hb with hb | hb
        · exact hb ▸ hta
        · exact ht b hb

theorem strSetUnion_sorted {acc : List String} (xs : List String)
    (h : acc.Sorted (· < ·)) : (strSetUnion acc xs).Sorted (· < ·) := by
  induction xs generalizing acc with
  | nil => simpa only [strSetUnion, List.foldl_nil] using h
  | cons x rest ih =>
    simpa only [strSetUnion, List.foldl_cons] using ih (setInsert_sorted h)

theorem strSetUnion_mem {acc xs : List String} {b : String} :
    b ∈ strSetUnion acc xs ↔ b ∈ acc ∨ b ∈ xs := by
  induction xs generalizing acc with
  | nil => simp [strSetUnion]
  | cons x rest ih =>
    simp only [strSetUnion, List.foldl_cons] at *
    rw [ih, setInsert_mem]
    simp only [List.mem_cons]
    tauto

theorem sortedSetOf_sorted (xs : List String) :
    (sortedSetOf xs).Sorted (· < ·) :=
  strSetUnion_sorted xs (by simp)

theorem sortedSetOf_mem {xs : List String} {b : String} :
    b ∈ sortedSetOf xs ↔ b ∈ xs := by
  simp [sortedSetOf, strSetUnion_mem]

/-- Every ID mined from text has the trial-ID shape. -/
theorem nctIdsAux_shape (prevWord : Bool) (cs : List Char) :
    ∀ s ∈ nctIdsAux prevWord cs, isNctId s := by
  induction cs generalizing prevWord with
  | nil => intro s hs; cases prevWord <;> simp [nctIdsAux] at hs
  | cons c rest ih =>
    intro s hs
    cases prevWord with
    | true =>
      simp only [nctIdsAux] at hs
      exact ih _ s hs
    | false =>
      simp only [nctIdsAux] at hs
      cases hm : nctMatchAt (c :: rest) with
      | none =>
        rw [hm] at hs
        exact ih _ s hs
      | some digits =>
        rw [hm] at hs
        rcases List.mem_cons.mp hs with hs | hs
        · subst hs
          rcases rest with _ | ⟨c1, rest1⟩
          · exact absurd hm (by simp [nctMatchAt])
          rcases rest1 with _ | ⟨c2, rest2⟩
          · exact absurd hm (by simp [nctMatchAt])
          simp only [nctMatchAt] at hm
          split at hm
          · split at hm
            next hd =>
              injection hm with hdig
              subst hdig
              show isNctIdB _ = true
              have hrw : isNctIdB (String.mk ('N' :: 'C' :: 'T' :: List.take 8 rest2)) =
                  ((List.take 8 rest2).length = 8 && (List.take 8 rest2).all Char.isDigit) := rfl
              rw [hrw]
              simp only [Bool.and_eq_true] at hd ⊢
              exact ⟨hd.1.1, hd.1.2⟩
            next _ => exact Option.noConfusion hm
          · exact Option.noConfusion hm
        · exact ih _ s hs

theorem nctIdsInText_shape (s : String) :
    ∀ t ∈ nctIdsInText s, isNctId t :=
  nctIdsAux_shape false s.data

theorem extract_nct_ids_from_text_shape (s : String) :
    ∀ t ∈ extract_nct_ids_from_text s, isNctId t := by
  intro t ht
  exact nctIdsInText_shape s t (sortedSetOf_mem.mp ht)

/-! ### Keyword regex predicates of `pug_view.py`

`CLINICAL_TRIALS_RE = clinical\s*trials?(\.gov)?` (IGNORECASE, `search`):
the two optional groups never affect whether a match exists, so the
search succeeds exactly when `clinical`, optional whitespace, `trial`
occurs somewhere.  `DRUG_MED_INFO_RE =
drug(?:\s|-|&|and)+medication(?:\s|-)+information` (IGNORECASE,
`search`), modelled with full backtracking over the separator runs. -/

/-- Run a position-anchored matcher at every suffix (`re.search`). -/
def anyTailHit (p : List Char → Bool) : List Char → Bool
  | [] => p []
  | c :: cs => p (c :: cs) || anyTailHit p cs

def clinicalTrialsHitAt (cs : List Char) : Bool :=
  match matchLitCI "clinical".data cs with
  | none => false
  | some rest => (matchLitCI "trial".data (rest.dropWhile Char.isWhitespace)).isSome

def clinicalTrialsSearch (s : String) : Bool := anyTailHit clinicalTrialsHitAt s.data

/-- Remainders after consuming one `(?:\s|-|&|and)` separator. -/
def sepA (cs : List Char) : List (List Char) :=
  (match cs with
   | c :: rest => if c.isWhitespace || c = '-' || c = '&' then [rest] else []
   | [] => []) ++
  (match matchLitCI "and".data cs with
   | some rest => [rest]
   | none => [])

/-- Remainders after consuming one `(?:\s|-)` separator. -/
def sepB (cs : List Char) : List (List Char) :=
  match cs with
  | c :: rest => if c.isWhitespace || c = '-' then [rest] else []
  | [] => []

/-- `(alt)+` followed by a continuation, with full backtracking; every
separator alternative consumes at least one character, so fuel
`length + 1` is exhaustive. -/
def plusThen (step : List Char → List (List Char)) (k : List Char → Bool) :
    Nat → List Char → Bool
  | 0, _ => false
  | fuel + 1, cs => (step cs).any (fun r => k r || plusThen step k fuel r)

def drugMedInfoHitAt (cs : List Char) : Bool :=
  match matchLitCI "drug".data cs with
  | none => false
  | some r1 =>
    plusThen sepA (fun r2 =>
      match matchLitCI "medication".data r2 with
      | none => false
      | some r3 =>
        plusThen sepB (fun r4 => (matchLitCI "information".data r4).isSome)
          (r3.length + 1) r3) (r1.length + 1) r1

def drugMedInfoSearch (s : String) : Bool := anyTailHit drugMedInfoHitAt s.data

/-- Python `str.strip()` (whitespace at both ends). -/
def pyStrip (s : String) : String :=
  String.mk (((s.data.dropWhile Char.isWhitespace).reverse.dropWhile Char.isWhitespace).reverse)

/-! ### `pug_view.py` extractors -/

/-- `_extract_urls`: URL string values of dicts reachable below the root. -/
def extractUrls (payload : Json) : List String :=
  payload.walk.filterMap (fun x =>
    match x with
    | .obj fields =>
      match dictGet fields "URL" with
      | some (.str u) => some u
      | _ => none
    | _ => none)

/-- `_extract_nct_ids_from_payload`: IDs from ClinicalTrials.gov URLs plus
IDs from any string value mentioning `nct` or `clinicaltrials.gov`. -/
def extract_nct_ids_from_payload (payload : Json) : List String :=
  let fromUrls := (extractUrls payload).foldl
    (fun acc url =>
      if containsCI url "clinicaltrials.gov" then strSetUnion acc (nctIdsInText url)
      else acc) []
  payload.walk.foldl
    (fun acc x =>
      match x with
      | .str s =>
        if containsCI s "nct" || containsCI s "clinicaltrials.gov" then
          strSetUnion acc (nctIdsInText s)
        else acc
      | _ => acc) fromUrls

/-- `_has_external_clinical_trials_ref`. -/
def has_external_clinical_trials_ref (payload : Json) : Bool :=
  payload.walk.any (fun x =>
    match x with
    | .obj fields =>
      match dictGet fields "ExternalTableName" with
      | some (.str name) => clinicalTrialsSearch name
      | _ => false
    | _ => false)

def fixedHeadingCandidates : List String :=
  ["ClinicalTrials.gov", "Clinical Trials", "ClinicalTrials",
   "Drug and Medication Information", "Drug-and-Medication-Information"]

def headingKeyFields : List String := ["TOCHeading", "Name", "Heading", "Title"]

/-- `_candidate_clinical_headings`, already in its `sorted(...)` iteration
order (sets are represented sorted). -/
def candidate_clinical_headings (payload : Json) : List String :=
  payload.walk.foldl (fun acc x =>
    match x with
    | .obj fields =>
      headingKeyFields.foldl (fun acc2 key =>
        match dictGet fields key with
        | some (.str val) =>
          if clinicalTrialsSearch val || drugMedInfoSearch val then setInsert (pyStrip val) acc2
          else acc2
        | _ => acc2) acc
    | _ => acc) (sortedSetOf fixedHeadingCandidates)

/-! ### `web_fallback/common.py` extractors -/

/-- `extract_nct_ids_from_html`. -/
def extract_nct_ids_from_html (html : String) : List String :=
  sortedSetOf (nctIdsInText html)

/-- `extract_nct_ids_from_sdq_payload`: IDs in every string value below the root. -/
def extract_nct_ids_from_sdq_payload (payload : Json) : List String :=
  payload.walk.foldl (fun acc x =>
    match x with
    | .str s => strSetUnion acc (nctIdsInText s)
    | _ => acc) []

/-! ### Provenance labels -/

def pugViewAnnotationsLabel : String := "PubChem PUG-View annotations"

def sdqCtgovLabel : String := "PubChem web clinicaltrials endpoint fallback (sdq)"

def sdqEuLabel : String := "PubChem web EU Clinical Trials Register endpoint fallback (sdq)"

def sdqJpLabel : String :=
  "PubChem web NIPH Clinical Trials Search of Japan endpoint fallback (sdq)"

def htmlFallbackLabel : String := "PubChem web compound page fallback (html)"

def emptyFallbackLabel : String := "PubChem web fallback (empty)"

theorem labels_nonempty :
    pugViewAnnotationsLabel ≠ "" ∧ sdqCtgovLabel ≠ "" ∧ sdqEuLabel ≠ "" ∧
    sdqJpLabel ≠ "" ∧ htmlFallbackLabel ≠ "" ∧ emptyFallbackLabel ≠ "" := by
  refine ⟨?_, ?_, ?_, ?_, ?_, ?_⟩ <;> decide

/-! ### The web-fallback resolver (`web_fallback/__init__.py`)

Upstream HTTP interactions are modelled as `Except Unit` values: `.error`
stands for a raised `PubChemWebFallbackError` (after retries).  The trace
records how many registry SDQ endpoints were queried and whether the raw
compound-page HTML was fetched. -/

structure WebFallbackUpstream where
  ctgovPayload : Except Unit Json
  euPayload : Except Unit Json
  jpPayload : Except Unit Json
  htmlPage : Except Unit String

structure WebFallbackTrace where
  sdqAttempts : Nat
  htmlFetched : Bool
deriving DecidableEq

/-- IDs produced by one SDQ registry step: the extraction on a fetched
payload, or nothing when the fetch raised (caught, falls through). -/
def sdqStepNcts (p : Except Unit Json) : List String :=
  match p with
  | .ok payload => extract_nct_ids_from_sdq_payload payload
  | .error _ => []

/-- `PubChemWebFallbackClient.nct_ids_for_cid_with_source`: three SDQ
registries in fixed order, each failure (exception or empty) falling
through, then raw HTML; an HTML fetch error propagates (it is outside
any `try`). -/
def webFallback_nct_ids_for_cid_with_source (u : WebFallbackUpstream) :
    Except Unit (List String × String) :=
  let ctgovNcts := sdqStepNcts u.ctgovPayload
  if ctgovNcts.isEmpty then
    let euNcts := sdqStepNcts u.euPayload
    if euNcts.isEmpty then
      let jpNcts := sdqStepNcts u.jpPayload
      if jpNcts.isEmpty then
        match u.htmlPage with
        | .error e => .error e
        | .ok html =>
          let htmlNcts := extract_nct_ids_from_html html
          if htmlNcts.isEmpty then .ok ([], emptyFallbackLabel)
          else .ok (htmlNcts, htmlFallbackLabel)
      else .ok (jpNcts, sdqJpLabel)
    else .ok (euNcts, sdqEuLabel)
  else .ok (ctgovNcts, sdqCtgovLabel)

/-- The calls the web fallback performs on the same control flow: how
many SDQ registries were queried and whether the HTML page was fetched. -/
def webFallbackTrace (u : WebFallbackUpstream) : WebFallbackTrace :=
  if (sdqStepNcts u.ctgovPayload).isEmpty then
    if (sdqStepNcts u.euPayload).isEmpty then
      if (sdqStepNcts u.jpPayload).isEmpty then ⟨3, true⟩
      else ⟨3, false⟩
    else ⟨2, false⟩
  else ⟨1, false⟩

/-! ### The PUG-View resolver (`pug_view.py`) -/

structure PugViewUpstream where
  record : Json
  byHeading : String → Option Json
  web : WebFallbackUpstream

structure PugViewTrace where
  headingCalls : List String
  sdqAttempts : Nat
  htmlFetched : Bool
deriving DecidableEq

/-- Headings attempted by the resolver: the sorted candidate set when the
tier-1 result is empty or the record declares an external
clinical-trials table, none otherwise. -/
def pugViewHeadings (u : PugViewUpstream) : List String :=
  if (extract_nct_ids_from_payload u.record).isEmpty ||
      has_external_clinical_trials_ref u.record then
    candidate_clinical_headings u.record
  else []

/-- The ID set after tier 1 (structured annotations) and tier 2 (the
heading-scoped lookups); `u.byHeading h = none` models a
`PubChemPugViewError` for that heading (caught, heading skipped). -/
def pugViewHeadingNcts (u : PugViewUpstream) : List String :=
  (pugViewHeadings u).foldl (fun acc heading =>
    match u.byHeading heading with
    | none => acc
    | some sectionPayload => strSetUnion acc (extract_nct_ids_from_payload sectionPayload))
    (extract_nct_ids_from_payload u.record)

/-- `PubChemPugViewClient.nct_ids_for_cid_with_source`; the final
`sorted(ncts)` is the identity on the sorted-set representation. -/
def nct_ids_for_cid_with_source (useWebFallback : Bool) (u : PugViewUpstream) :
    List String × String :=
  let ncts1 := pugViewHeadingNcts u
  if ncts1.isEmpty && useWebFallback then
    match webFallback_nct_ids_for_cid_with_source u.web with
    | .error _ => (ncts1, pugViewAnnotationsLabel)
    | .ok (fallbackNcts, fallbackSource) =>
      let ncts2 := strSetUnion ncts1 fallbackNcts
      let source := if ncts2.isEmpty then pugViewAnnotationsLabel else fallbackSource
      (ncts2, source)
  else (ncts1, pugViewAnnotationsLabel)

/-- The calls the resolver makes, on the same control flow: which
heading-scoped lookups are issued, and the SDQ/HTML activity of the web
fallback when it runs. -/
def pugViewCallTrace (useWebFallback : Bool) (u : PugViewUpstream) : PugViewTrace :=
  if (pugViewHeadingNcts u).isEmpty && useWebFallback then
    let tr := webFallbackTrace u.web
    ⟨pugViewHeadings u, tr.sdqAttempts, tr.htmlFetched⟩
  else ⟨pugViewHeadings u, 0, false⟩

/-! ### Sorted-set and pattern invariants of the resolver -/

/-- A well-formed mined ID set: strictly sorted and every element has the
trial-ID shape. -/
def NctSet (l : List String) : Prop :=
  l.Sorted (· < ·) ∧ ∀ t ∈ l, isNctId t

theorem NctSet_nil : NctSet [] := ⟨by simp, by simp⟩

theorem NctSet_union {acc xs : List String} (h : NctSet acc)
    (hxs : ∀ t ∈ xs, isNctId t) : NctSet (strSetUnion acc xs) := by
  refine ⟨strSetUnion_sorted xs h.1, ?_⟩
  intro t ht
  rcases strSetUnion_mem.mp ht with ht | ht
  · exact h.2 t ht
  · exact hxs t ht

theorem foldl_preserve {α β : Type} (P : α → Prop) (f : α → β → α) (l : List β) (init : α)
    (h0 : P init) (hstep : ∀ a b, P a → P (f a b)) : P (l.foldl f init) := by
  induction l generalizing init with
  | nil => exact h0
  | cons x rest ih => exact ih _ (hstep _ _ h0)

theorem extract_nct_ids_from_payload_nctset (payload : Json) :
    NctSet (extract_nct_ids_from_payload payload) := by
  unfold extract_nct_ids_from_payload
  refine foldl_preserve _ _ _ _ ?_ ?_
  · refine foldl_preserve _ _ _ _ NctSet_nil ?_
    intro a url ha
    dsimp only
    split
    · exact NctSet_union ha (nctIdsInText_shape url)
    · exact ha
  · intro a x ha
    match x with
    | .str s =>
      dsimp only
      split
      · exact NctSet_union ha (nctIdsInText_shape s)
      · exact ha
    | .null | .bool _ | .num _ | .arr _ | .obj _ => exact ha

theorem extract_nct_ids_from_sdq_payload_nctset (payload : Json) :
    NctSet (extract_nct_ids_from_sdq_payload payload) := by
  unfold extract_nct_ids_from_sdq_payload
  refine foldl_preserve _ _ _ _ NctSet_nil ?_
  intro a x ha
  match x with
  | .str s => exact NctSet_union ha (nctIdsInText_shape s)
  | .null | .bool _ | .num _ | .arr _ | .obj _ => exact ha

theorem extract_nct_ids_from_html_nctset (html : String) :
    NctSet (extract_nct_ids_from_html html) :=
  ⟨sortedSetOf_sorted _, fun t ht => nctIdsInText_shape html t (sortedSetOf_mem.mp ht)⟩

/-- Every ID set an SDQ step yields is well-formed. -/
theorem sdqStepNcts_nctset (p : Except Unit Json) : NctSet (sdqStepNcts p) := by
  cases p with
  | ok payload => exact extract_nct_ids_from_sdq_payload_nctset payload
  | error e => exact NctSet_nil

/-- Any successful web-fallback result is a well-formed ID set with one of
the four producing labels, or the empty list with the reserved label. -/
theorem webFallback_ok_nctset {u : WebFallbackUpstream} {ids : List String} {src : String}
    (h : webFallback_nct_ids_for_cid_with_source u = .ok (ids, src)) :
    NctSet ids ∧ src ∈ [sdqCtgovLabel, sdqEuLabel, sdqJpLabel, htmlFallbackLabel,
      emptyFallbackLabel] := by
  unfold webFallback_nct_ids_for_cid_with_source at h
  dsimp only at h
  split at h
  · split at h
    · split at h
      · split at h
        · exact absurd h (by simp)
        · split at h
          · injection h with h1
            injection h1 with hids hsrc
            subst hids; subst hsrc
            exact ⟨NctSet_nil, by simp⟩
          · injection h with h1
            injection h1 with hids hsrc
            subst hids; subst hsrc
            exact ⟨extract_nct_ids_from_html_nctset _, by simp⟩
      · injection h with h1
        injection h1 with hids hsrc
        subst hids; subst hsrc
        exact ⟨sdqStepNcts_nctset _, by simp⟩
    · injection h with h1
      injection h1 with hids hsrc
      subst hids; subst hsrc
      exact ⟨sdqStepNcts_nctset _, by simp⟩
  · injection h with h1
    injection h1 with hids hsrc
    subst hids; subst hsrc
    exact ⟨sdqStepNcts_nctset _, by simp⟩

theorem pugViewHeadingNcts_nctset (u : PugViewUpstream) : NctSet (pugViewHeadingNcts u) := by
  unfold pugViewHeadingNcts
  refine foldl_preserve _ _ _ _ (extract_nct_ids_from_payload_nctset _) ?_
  intro a heading ha
  cases hh : u.byHeading heading with
  | none => simpa only [hh] using ha
  | some sectionPayload =>
    simp only [hh]
    exact NctSet_union ha (extract_nct_ids_from_payload_nctset sectionPayload).2

/-- **C1.**  For every upstream behaviour (hence for every valid CID),
the CID→NCT resolver `nct_ids_for_cid_with_source` returns a pair
`(ids, source)` in which `ids` is sorted, duplicate-free, every element
is the uppercase trial-ID pattern (`NCT` + exactly 8 digits), and
`source` is a non-empty provenance label. -/
theorem c1_resolver_output_wellformed (useWebFallback : Bool) (u : PugViewUpstream) :
    (nct_ids_for_cid_with_source useWebFallback u).1.Sorted (· < ·) ∧
    (nct_ids_for_cid_with_source useWebFallback u).1.Nodup ∧
    (∀ t ∈ (nct_ids_for_cid_with_source useWebFallback u).1, isNctId t) ∧
    (nct_ids_for_cid_with_source useWebFallback u).2 ≠ "" := by
  have h1 := pugViewHeadingNcts_nctset u
  unfold nct_ids_for_cid_with_source
  dsimp only
  split
  · cases hwf : webFallback_nct_ids_for_cid_with_source u.web with
    | error e =>
      simp only [hwf]
      exact ⟨h1.1, h1.1.nodup, h1.2, labels_nonempty.1⟩
    | ok pr =>
      obtain ⟨fids, fsrc⟩ := pr
      have h2 := webFallback_ok_nctset hwf
      have hu : NctSet (strSetUnion (pugViewHeadingNcts u) fids) := NctSet_union h1 h2.1.2
      simp only [hwf]
      refine ⟨hu.1, hu.1.nodup, hu.2, ?_⟩
      dsimp only
      split
      · exact labels_nonempty.1
      · have hmem := h2.2
        simp only [List.mem_cons, List.not_mem_nil, or_false] at hmem
        rcases hmem with h | h | h | h | h <;> subst h
        · exact labels_nonempty.2.1
        · exact labels_nonempty.2.2.1
        · exact labels_nonempty.2.2.2.1
        · exact labels_nonempty.2.2.2.2.1
        · exact labels_nonempty.2.2.2.2.2
  · exact ⟨h1.1, h1.1.nodup, h1.2, labels_nonempty.1⟩

/-- If tier 1 produced at least one ID, the post-heading ID set is still
non-empty (headings only add to the union). -/
theorem pugViewHeadingNcts_nonempty {u : PugViewUpstream}
    (h : extract_nct_ids_from_payload u.record ≠ []) : pugViewHeadingNcts u ≠ [] := by
  rcases List.exists_mem_of_ne_nil _ h with ⟨x, hx⟩
  have hmem : x ∈ pugViewHeadingNcts u := by
    unfold pugViewHeadingNcts
    refine foldl_preserve (fun l => x ∈ l) _ _ _ hx ?_
    intro a heading ha
    cases hh : u.byHeading heading with
    | none => simpa only [hh] using ha
    | some sectionPayload =>
      simp only [hh]
      exact strSetUnion_mem.mpr (Or.inl ha)
  exact List.ne_nil_of_mem hmem

/-- **C2 (amended).**  If tier 1 (structured annotation extraction)
yields at least one trial ID, the web fallback never runs — no
per-registry SDQ search and no raw-HTML fetch — and the heading-scoped
lookups are skipped exactly when the record does not declare an external
clinical-trials table reference.  (The unamended claim — that a
non-empty tier 1 suppresses the heading lookups unconditionally — is
false; see the counterexample.) -/
theorem c2_tier1_shortcircuit_amended (useWebFallback : Bool) (u : PugViewUpstream)
    (h1 : extract_nct_ids_from_payload u.record ≠ []) :
    (pugViewCallTrace useWebFallback u).sdqAttempts = 0 ∧
    (pugViewCallTrace useWebFallback u).htmlFetched = false ∧
    (has_external_clinical_trials_ref u.record = false →
      (pugViewCallTrace useWebFallback u).headingCalls = []) := by
  have hne := pugViewHeadingNcts_nonempty h1
  have hempty : (pugViewHeadingNcts u).isEmpty = false := by
    cases hni : pugViewHeadingNcts u with
    | nil => exact absurd hni hne
    | cons a l => rfl
  have htr : pugViewCallTrace useWebFallback u = ⟨pugViewHeadings u, 0, false⟩ := by
    unfold pugViewCallTrace
    rw [hempty]
    simp
  rw [htr]
  refine ⟨rfl, rfl, ?_⟩
  intro href
  have h1e : (extract_nct_ids_from_payload u.record).isEmpty = false := by
    cases hni : extract_nct_ids_from_payload u.record with
    | nil => exact absurd hni h1
    | cons a l => rfl
  unfold pugViewHeadings
  rw [href, h1e]
  simp

/-- Compound record used to refute the unamended C2: tier 1 finds an ID
in a string, yet the record declares an external clinical-trials table,
so the resolver still issues heading-scoped lookups. -/
def c2Payload : Json :=
  .obj [("Section", .obj [
    ("ExternalTableName", .str "collection=clinicaltrials"),
    ("Information", .str "See NCT12345678 for details")])]

def c2Upstream : PugViewUpstream :=
  ⟨c2Payload, fun _ => none, ⟨.error (), .error (), .error (), .error ()⟩⟩

/-- **C2 (counterexample).**  A record whose structured-annotation
extraction yields an ID and which also declares an external
clinical-trials table: the resolver still performs heading-scoped
lookups, contradicting the claim that a non-empty tier 1 suppresses
tiers 2–4. -/
theorem c2_counterexample :
    extract_nct_ids_from_payload c2Payload ≠ [] ∧
    (pugViewCallTrace true c2Upstream).headingCalls ≠ [] := by
  constructor
  · decide
  · decide

/-- Closed witness for the amended C2 at a concrete record. -/
def c2wUpstream : PugViewUpstream :=
  ⟨.obj [("String", .str "Referenced in NCT00001234")], fun _ => none,
   ⟨.error (), .error (), .error (), .error ()⟩⟩

theorem c2_tier1_shortcircuit_amended_witness :
    (pugViewCallTrace true c2wUpstream).sdqAttempts = 0 ∧
    (pugViewCallTrace true c2wUpstream).htmlFetched = false ∧
    (pugViewCallTrace true c2wUpstream).headingCalls = [] := by
  have h := c2_tier1_shortcircuit_amended true c2wUpstream (by decide)
  exact ⟨h.1, h.2.1, h.2.2 (by decide)⟩

/-- All-tiers-empty upstream used to refute the unamended C3: the record
has no IDs, every heading lookup returns an empty section, every SDQ
registry returns an ID-free payload, and the compound page HTML is
ID-free. -/
def c3Upstream : PugViewUpstream :=
  ⟨.obj [("RecordTitle", .str "nothing of note")],
   fun _ => some (.obj []),
   ⟨.ok (.obj [("SDQOutputSet", .arr [])]), .ok (.obj [("SDQOutputSet", .arr [])]),
    .ok (.obj [("SDQOutputSet", .arr [])]), .ok "<html>no ids</html>"⟩⟩

/-- Upstream where tier 1 produces an ID, showing the label
`PubChem PUG-View annotations` is a producing-tier label. -/
def c3ProducingUpstream : PugViewUpstream :=
  ⟨.obj [("String", .str "trial NCT00009999")], fun _ => none,
   ⟨.error (), .error (), .error (), .error ()⟩⟩

/-- **C3 (counterexample).**  When every tier is empty the top-level
resolver returns the label `PubChem PUG-View annotations` — the very
label it uses when tier 1 produces the result — not a reserved
no-result label distinct from every producing tier's label. -/
theorem c3_counterexample :
    nct_ids_for_cid_with_source true c3Upstream = ([], pugViewAnnotationsLabel) ∧
    nct_ids_for_cid_with_source true c3ProducingUpstream =
      (["NCT00009999"], pugViewAnnotationsLabel) := by
  constructor
  · decide
  · decide

/-- **C3 (amended).**  When every tier produces no IDs, the top-level
resolver returns the empty list with the *default tier-1 label*
`PubChem PUG-View annotations` (it discards the web fallback's label);
the web-fallback subresolver alone returns the reserved label
`PubChem web fallback (empty)`, which is distinct from every label
naming a producing tier or registry. -/
theorem c3_empty_label_amended (u : PugViewUpstream)
    (h1 : pugViewHeadingNcts u = [])
    (h2 : sdqStepNcts u.web.ctgovPayload = [])
    (h3 : sdqStepNcts u.web.euPayload = [])
    (h4 : sdqStepNcts u.web.jpPayload = [])
    (h5 : ∀ html, u.web.htmlPage = .ok html → extract_nct_ids_from_html html = [])
    (html0 : String) (h6 : u.web.htmlPage = .ok html0) :
    nct_ids_for_cid_with_source true u = ([], pugViewAnnotationsLabel) ∧
    webFallback_nct_ids_for_cid_with_source u.web = .ok ([], emptyFallbackLabel) ∧
    emptyFallbackLabel ∉ [pugViewAnnotationsLabel, sdqCtgovLabel, sdqEuLabel,
      sdqJpLabel, htmlFallbackLabel] := by
  have hwf : webFallback_nct_ids_for_cid_with_source u.web = .ok ([], emptyFallbackLabel) := by
    unfold webFallback_nct_ids_for_cid_with_source
    rw [h2, h3, h4, h6]
    have h5e := h5 html0 h6
    simp [h5e]
  refine ⟨?_, hwf, by decide⟩
  unfold nct_ids_for_cid_with_source
  rw [hwf]
  simp [h1, strSetUnion, pugViewAnnotationsLabel]

theorem c3_empty_label_amended_witness :
    nct_ids_for_cid_with_source true c3Upstream = ([], pugViewAnnotationsLabel) ∧
    webFallback_nct_ids_for_cid_with_source c3Upstream.web =
      .ok ([], emptyFallbackLabel) := by
  have h := c3_empty_label_amended c3Upstream (by decide) (by decide) (by decide)
    (by decide) (by intro html hh; injection hh with hh1; subst hh1; decide)
    "<html>no ids</html>" rfl
  exact ⟨h.1, h.2.1⟩

/-! ### The fuzzy compound-trial linker (`pipeline/linker.py`)

The PubChem and CTGov clients are duck-typed; they are modelled as an
upstream record giving the synonym list, the compound-property dict and
the per-term study streams (the page-size/max-pages caps live inside the
stubbed `iter_studies`). -/

/-- `_norm_text`: casefold (ASCII lowering), collapse every whitespace
run to a single space, strip. -/
def collapseWsAux : Bool → List Char → List Char
  | _, [] => []
  | inRun, c :: cs =>
    if c.isWhitespace then
      if inRun then collapseWsAux true cs
      else ' ' :: collapseWsAux true cs
    else c :: collapseWsAux false cs

def dropEdgeSpaces (cs : List Char) : List Char :=
  ((cs.dropWhile (· = ' ')).reverse.dropWhile (· = ' ')).reverse

def normText (s : String) : String :=
  String.mk (dropEdgeSpaces (collapseWsAux false (s.data.map Char.toLower)))

/-- Top-level `.get` on a JSON value that is a dict. -/
def jGet (j : Json) (k : String) : Option Json :=
  match j with
  | .obj fields => dictGet fields k
  | _ => none

/-- `x.get(k) or {}` chains: a missing/falsy value becomes `{}`. -/
def asObjFields : Option Json → List (String × Json)
  | some (.obj fields) => fields
  | _ => []

def asArrItems : Option Json → List Json
  | some (.arr items) => items
  | _ => []

/-- A string field; non-strings contribute `""` (they are filtered out of
the blob pieces by the `isinstance(p, str)` check, which is equivalent
after whitespace normalization). -/
def strFieldD : Option Json → String
  | some (.str s) => s
  | _ => ""

def joinSpace (xs : List String) : String := String.intercalate " " xs

/-- `_extract_text_blob`: brief title, official title, overall status,
conditions and intervention names, joined and normalized. -/
def extract_text_blob (study : Json) : String :=
  let ps := asObjFields (jGet study "protocolSection")
  let ident := asObjFields (dictGet ps "identificationModule")
  let title := strFieldD (dictGet ident "briefTitle")
  let official := strFieldD (dictGet ident "officialTitle")
  let status := strFieldD (dictGet (asObjFields (dictGet ps "statusModule")) "overallStatus")
  let conditions := asArrItems (dictGet (asObjFields (dictGet ps "conditionsModule")) "conditions")
  let condStr := joinSpace (conditions.filterMap (fun j =>
    match j with
    | .str s => some s
    | _ => none))
  let interventions :=
    asArrItems (dictGet (asObjFields (dictGet ps "interventionsModule")) "interventions")
  let names := interventions.filterMap (fun j =>
    match j with
    | .obj fields =>
      match dictGet fields "name" with
      | some (.str s) => some s
      | _ => none
    | _ => none)
  normText (joinSpace [title, official, status, condStr, joinSpace names])

/-- First of several keys holding a non-blank string, stripped
(`_extract_nct_id`'s legacy top-level key loop). -/
def firstStrKey (study : Json) : List String → Option String
  | [] => none
  | k :: ks =>
    match jGet study k with
    | some (.str v) => if pyStrip v ≠ "" then some (pyStrip v) else firstStrKey study ks
    | _ => firstStrKey study ks

/-- `_extract_nct_id`: the nested `protocolSection.identificationModule.nctId`,
then the legacy top-level variants. -/
def extract_nct_id_of_study (study : Json) : Option String :=
  let ps := asObjFields (jGet study "protocolSection")
  let ident := asObjFields (dictGet ps "identificationModule")
  match dictGet ident "nctId" with
  | some (.str s) =>
    if pyStrip s ≠ "" then some (pyStrip s)
    else firstStrKey study ["nctId", "NCTId", "nct_id"]
  | _ => firstStrKey study ["nctId", "NCTId", "nct_id"]

/-- The regex class `[^a-z0-9]` complement (the blob is already
casefolded). -/
def isLowerAlnumAscii (c : Char) : Bool := ('a' ≤ c && c ≤ 'z') || ('0' ≤ c && c ≤ '9')

/-- Case-sensitive literal match at the head of the stream. -/
def matchLit : List Char → List Char → Option (List Char)
  | [], cs => some cs
  | _ :: _, [] => none
  | p :: ps, c :: cs => if c = p then matchLit ps cs else none

/-- `t in blob`. -/
def subAux (needle : List Char) : List Char → Bool
  | [] => needle.isEmpty
  | c :: cs => (matchLit needle (c :: cs)).isSome || subAux needle cs

/-- `re.search(r"(^|[^a-z0-9])" + re.escape(t) + r"([^a-z0-9]|$)", blob)`:
the Bool argument records whether the current position follows the start
of the string or a non-`[a-z0-9]` character. -/
def wwAux (t : List Char) : Bool → List Char → Bool
  | atB, [] =>
    atB && (match matchLit t [] with
            | some [] => true
            | some (_ :: _) => false
            | none => false)
  | atB, c :: rest =>
    (atB && (match matchLit t (c :: rest) with
             | some [] => true
             | some (r :: _) => !(isLowerAlnumAscii r)
             | none => false)) ||
    wwAux t (!(isLowerAlnumAscii c)) rest

/-- `CompoundTrialLinker._score`: +2 for a substring hit in the blob, +1
more for a whole-word hit, with the matching reason strings. -/
def linker_score (term : String) (study : Json) : Nat × List String :=
  let blob := (extract_text_blob study).data
  let t := (normText term).data
  let base : Nat × List String :=
    if t ≠ [] && subAux t blob then (2, ["term_found_in_core_fields(+2)"]) else (0, [])
  if t ≠ [] && wwAux t true blob then
    (base.1 + 1, base.2 ++ ["term_whole_word_match(+1)"])
  else base

structure LinkEvidence where
  term : String
  query_mode : String
  score : Nat
  reasons : List String
deriving DecidableEq

structure LinkResult where
  cid : Nat
  nct_id : String
  evidence : LinkEvidence
deriving DecidableEq

/-- `LinkerConfig` (defaults of the dataclass: 20, 100, 2, 2, 50). -/
structure LinkerConfig where
  max_synonyms : Nat
  ctgov_page_size : Nat
  ctgov_max_pages_per_term : Nat
  min_score : Nat
  max_links_per_cid : Nat
deriving DecidableEq

def linkerConfigDefault : LinkerConfig := ⟨20, 100, 2, 2, 50⟩

structure LinkerUpstream where
  synonyms : List String
  props : List (String × Json)
  intrStudies : String → List Json
  termStudies : String → List Json

/-- `_iter_ctgov_by_term`: the intervention-scoped stream then the
free-text stream, each pair tagged with its query mode. -/
def iter_ctgov_by_term (u : LinkerUpstream) (term : String) : List (String × Json) :=
  (u.intrStudies term).map (fun s => ("intr", s)) ++
  (u.termStudies term).map (fun s => ("term", s))

/-- The per-document loop of `link_cid`: skip documents without an ID,
skip scores below the minimum, deduplicate `(cid, nct)` pairs, stop hard
as soon as the cap is reached (third component). -/
def linkDocsLoop (cfg : LinkerConfig) (cid : Nat) (term : String) :
    List (String × Json) → List LinkResult → List (Nat × String) →
    List LinkResult × List (Nat × String) × Bool
  | [], results, seen => (results, seen, false)
  | (mode, study) :: rest, results, seen =>
    match extract_nct_id_of_study study with
    | none => linkDocsLoop cfg cid term rest results seen
    | some nct =>
      let sr := linker_score term study
      if sr.1 < cfg.min_score then linkDocsLoop cfg cid term rest results seen
      else if (cid, nct) ∈ seen then linkDocsLoop cfg cid term rest results seen
      else
        let results2 := results ++ [⟨cid, nct, ⟨term, mode, sr.1, sr.2⟩⟩]
        let seen2 := seen ++ [(cid, nct)]
        if cfg.max_links_per_cid ≤ results2.length then (results2, seen2, true)
        else linkDocsLoop cfg cid term rest results2 seen2

/-- The per-term loop of `link_cid`: strip the term, skip blanks, stream
both query modes, return immediately when the cap was hit. -/
def linkTermsLoop (cfg : LinkerConfig) (cid : Nat) (u : LinkerUpstream) :
    List String → List LinkResult → List (Nat × String) → List LinkResult
  | [], results, _ => results
  | term0 :: rest, results, seen =>
    let term := pyStrip term0
    if term = "" then linkTermsLoop cfg cid u rest results seen
    else
      let step := linkDocsLoop cfg cid term (iter_ctgov_by_term u term) results seen
      if step.2.2 then step.1 else linkTermsLoop cfg cid u rest step.1 step.2.1

/-- `CompoundTrialLinker.link_cid`: candidate terms are the synonyms,
with the IUPAC name inserted first when it is a non-blank string of at
most 40 characters not already among the synonyms. -/
def link_cid (cfg : LinkerConfig) (u : LinkerUpstream) (cid : Nat) : List LinkResult :=
  let syns0 := u.synonyms
  let syns :=
    match dictGet u.props "IUPACName" with
    | some (.str iupac) =>
      if pyStrip iupac ≠ "" && iupac.length ≤ 40 && iupac ∉ syns0 then pyStrip iupac :: syns0
      else syns0
    | _ => syns0
  linkTermsLoop cfg cid u syns [] []

theorem str_eq_empty_iff (s : String) : s = "" ↔ s.data = [] := by
  constructor
  · intro h
    rw [h]
  · intro h
    apply String.ext
    rw [h]

theorem linkDocsLoop_scores (cfg : LinkerConfig) (cid : Nat) (term : String)
    (pairs : List (String × Json)) (results : List LinkResult) (seen : List (Nat × String))
    (hres : ∀ r ∈ results, cfg.min_score ≤ r.evidence.score) :
    ∀ r ∈ (linkDocsLoop cfg cid term pairs results seen).1,
      cfg.min_score ≤ r.evidence.score := by
  induction pairs generalizing results seen with
  | nil => exact hres
  | cons p rest ih =>
    obtain ⟨mode, study⟩ := p
    rw [linkDocsLoop]
    cases hx : extract_nct_id_of_study study with
    | none => exact ih results seen hres
    | some nct =>
      dsimp only
      split
      · exact ih results seen hres
      · split
        · exact ih results seen hres
        · next hscore _ =>
          have hnew : ∀ r ∈ results ++
              [LinkResult.mk cid nct
                ⟨term, mode, (linker_score term study).1, (linker_score term study).2⟩],
              cfg.min_score ≤ r.evidence.score := by
            intro r hr
            rcases List.mem_append.mp hr with hr | hr
            · exact hres r hr
            · rcases List.mem_singleton.mp hr with rfl
              exact le_of_not_lt hscore
          split
          · exact hnew
          · exact ih _ _ hnew

theorem linkTermsLoop_scores (cfg : LinkerConfig) (cid : Nat) (u : LinkerUpstream)
    (terms : List String) (results : List LinkResult) (seen : List (Nat × String))
    (hres : ∀ r ∈ results, cfg.min_score ≤ r.evidence.score) :
    ∀ r ∈ linkTermsLoop cfg cid u terms results seen,
      cfg.min_score ≤ r.evidence.score := by
  induction terms generalizing results seen with
  | nil => exact hres
  | cons term0 rest ih =>
    rw [linkTermsLoop]
    dsimp only
    split
    · exact ih results seen hres
    · have hstep := linkDocsLoop_scores cfg cid (pyStrip term0)
        (iter_ctgov_by_term u (pyStrip term0)) results seen hres
      split
      · exact hstep
      · exact ih _ _ hstep

/-- Compound and stubbed trial-search data of the spec's concrete
scenario: one synonym `Aspirin`, one intervention-mode document whose
title contains `Aspirin trial`. -/
def aspirinStudy : Json :=
  .obj [("protocolSection", .obj [
    ("identificationModule", .obj [
      ("nctId", .str "NCT01234567"),
      ("briefTitle", .str "Aspirin trial")])])]

def aspirinUpstream : LinkerUpstream :=
  ⟨["Aspirin"], [], fun t => if t = "Aspirin" then [aspirinStudy] else [], fun _ => []⟩

def aspirinCfg5 : LinkerConfig := ⟨20, 100, 2, 5, 50⟩

/-- **C4.**  The fuzzy linker scores a document as +2 when the
normalized term occurs in the blob of title/official-title/status/
conditions/intervention names, plus +1 more when it also occurs there as
a whole word; a link is emitted only when the score reaches the
configured minimum; and on the concrete Aspirin scenario `min_score = 2`
yields exactly one link with score `3 ≥ 2` while `min_score = 5` yields
none. -/
theorem c4_fuzzy_linker_scoring :
    (∀ term study, normText term ≠ "" →
      (linker_score term study).1 =
        (if subAux (normText term).data (extract_text_blob study).data then 2 else 0) +
        (if wwAux (normText term).data true (extract_text_blob study).data then 1 else 0)) ∧
    (∀ cfg u cid, ∀ r ∈ link_cid cfg u cid, cfg.min_score ≤ r.evidence.score) ∧
    link_cid linkerConfigDefault aspirinUpstream 2244 =
      [⟨2244, "NCT01234567", ⟨"Aspirin", "intr", 3,
        ["term_found_in_core_fields(+2)", "term_whole_word_match(+1)"]⟩⟩] ∧
    link_cid aspirinCfg5 aspirinUpstream 2244 = [] := by
  refine ⟨?_, ?_, ?_, ?_⟩
  · intro term study hterm
    have ht : ((normText term).data ≠ []) := fun h => hterm ((str_eq_empty_iff _).mpr h)
    unfold linker_score
    dsimp only
    simp only [ne_eq, ht, not_false_eq_true, decide_True, Bool.true_and]
    split <;> split <;> simp_all
  · intro cfg u cid
    exact linkTermsLoop_scores cfg cid u _ [] [] (by intro r hr; cases hr)
  · decide
  · decide

/-- Closed witness instantiating the C4 scoring characterization and the
threshold property at the concrete scenario. -/
theorem c4_fuzzy_linker_scoring_witness :
    (linker_score "Aspirin" aspirinStudy).1 = 3 ∧
    (∀ r ∈ link_cid linkerConfigDefault aspirinUpstream 2244,
      linkerConfigDefault.min_score ≤ r.evidence.score) := by
  constructor
  · have h := c4_fuzzy_linker_scoring.1 "Aspirin" aspirinStudy (by decide)
    rw [h]
    decide
  · exact c4_fuzzy_linker_scoring.2.1 linkerConfigDefault aspirinUpstream 2244

/-! ### Row normalizers and schema unifier (`web_fallback/common.py`) -/

def SDQ_COLLECTION_CLINICALTRIALS : String := "clinicaltrials"

def SDQ_COLLECTION_EU_REGISTER : String := "clinicaltrials_eu"

def SDQ_COLLECTION_JAPAN_NIPH : String := "clinicaltrials_jp"

/-- `SDQ_COLLECTION_LABELS.get(collection, collection)`. -/
def sdqCollectionLabel (collection : String) : String :=
  if collection = SDQ_COLLECTION_CLINICALTRIALS then "ClinicalTrials.gov"
  else if collection = SDQ_COLLECTION_EU_REGISTER then "EU Clinical Trials Register"
  else if collection = SDQ_COLLECTION_JAPAN_NIPH then "NIPH Clinical Trials Search of Japan"
  else collection

/-- Python truthiness of a JSON-decoded value. -/
def jsonTruthy : Json → Bool
  | .null => false
  | .bool b => b
  | .num n => n ≠ 0
  | .str s => s ≠ ""
  | .arr items => !items.isEmpty
  | .obj fields => !fields.isEmpty

/-- `row.get(a) or row.get(b)` (falsy first value falls back), with the
final `None` represented as `Json.null`. -/
def orGetD (a b : Option Json) : Json :=
  match a with
  | some v => if jsonTruthy v then v else (b.getD Json.null)
  | none => b.getD Json.null

/-- `normalize_sdq_trial_row`: canonical projection with per-collection
identifier aliasing, `date`/`updatedate` `None`-fallback and
`id_url`/`link` truthiness-fallback. -/
def normalize_sdq_trial_row (row : List (String × Json)) (collection : String) :
    List (String × Json) :=
  let trialId :=
    if collection = SDQ_COLLECTION_EU_REGISTER then
      orGetD (dictGet row "eudractnumber") (dictGet row "ctid")
    else orGetD (dictGet row "ctid") (dictGet row "eudractnumber")
  let dateVal :=
    match dictGet row "date" with
    | some v => if v = Json.null then (dictGet row "updatedate").getD Json.null else v
    | none => (dictGet row "updatedate").getD Json.null
  let linkVal := orGetD (dictGet row "id_url") (dictGet row "link")
  [("collection", .str (sdqCollectionLabel collection)),
   ("collection_code", .str collection),
   ("id", trialId),
   ("title", (dictGet row "title").getD Json.null),
   ("phase", (dictGet row "phase").getD Json.null),
   ("status", (dictGet row "status").getD Json.null),
   ("date", dateVal),
   ("id_url", linkVal),
   ("cids", (dictGet row "cids").getD Json.null)]

/-- `normalize_sdq_trial_row_union`: the canonical projection, then every
raw field whose key is not already present appended in raw order. -/
def normalize_sdq_trial_row_union (row : List (String × Json)) (collection : String) :
    List (String × Json) :=
  row.foldl (fun out kv => if dictHas out kv.1 then out else out ++ [kv])
    (normalize_sdq_trial_row row collection)

def canonicalRowKeys : List String :=
  ["collection", "collection_code", "id", "title", "phase", "status", "date", "id_url", "cids"]

/-- `align_rows_to_union_schema`: union of all keys, sorted, every row
projected onto that ordered key list with `None` fill. -/
def align_rows_to_union_schema (rows : List (List (String × Json))) :
    List (List (String × Json)) × List String :=
  if rows.isEmpty then ([], [])
  else
    let orderedKeys := rows.foldl (fun acc r => strSetUnion acc (r.map Prod.fst)) []
    (rows.map (fun r => orderedKeys.map (fun k => (k, (dictGet r k).getD Json.null))),
     orderedKeys)

/-! Association-list lookup lemmas. -/

theorem dictGet_append (l1 l2 : List (String × Json)) (k : String) :
    dictGet (l1 ++ l2) k =
      (match dictGet l1 k with
       | some v => some v
       | none => dictGet l2 k) := by
  induction l1 with
  | nil => simp [dictGet]
  | cons kv rest ih =>
    obtain ⟨k1, v1⟩ := kv
    by_cases h : k1 = k
    · simp [dictGet, h]
    · simp [dictGet, h, ih]

theorem dictGet_isSome_iff (l : List (String × Json)) (k : String) :
    (dictGet l k).isSome ↔ k ∈ l.map Prod.fst := by
  induction l with
  | nil => simp [dictGet]
  | cons kv rest ih =>
    obtain ⟨k1, v1⟩ := kv
    by_cases h : k1 = k
    · simp [dictGet, h]
    · simp [dictGet, h, ih]
      intro hk
      exact absurd hk.symm h

/-- The union fold keeps every binding already present. -/
theorem unionFold_get_pres (l : List (String × Json)) (acc : List (String × Json))
    (k : String) (v : Json) (h : dictGet acc k = some v) :
    dictGet (l.foldl (fun out kv => if dictHas out kv.1 then out else out ++ [kv]) acc) k =
      some v := by
  induction l generalizing acc with
  | nil => simpa using h
  | cons kv rest ih =>
    simp only [List.foldl_cons]
    split
    · exact ih acc h
    · refine ih _ ?_
      rw [dictGet_append, h]

/-- A key absent from the accumulator comes out of the union fold with
its first raw occurrence. -/
theorem unionFold_get_new (l : List (String × Json)) (acc : List (String × Json))
    (k : String) (h : dictGet acc k = none) :
    dictGet (l.foldl (fun out kv => if dictHas out kv.1 then out else out ++ [kv]) acc) k =
      dictGet l k := by
  induction l generalizing acc with
  | nil => simpa [dictGet] using h
  | cons kv rest ih =>
    obtain ⟨k1, v1⟩ := kv
    simp only [List.foldl_cons]
    by_cases hk : k1 = k
    · subst hk
      have hhas : dictHas acc k1 = false := by
        unfold dictHas
        rw [h]
        rfl
      rw [hhas]
      simp only [Bool.false_eq_true, if_neg (by simp : ¬(False))]
      have hget : dictGet (acc ++ [(k1, v1)]) k1 = some v1 := by
        rw [dictGet_append, h]
        simp [dictGet]
      rw [unionFold_get_pres rest _ _ _ hget]
      simp [dictGet]
    · have hstep : ∀ out : List (String × Json),
          dictGet out k = none →
          dictGet (if dictHas out k1 then out else out ++ [(k1, v1)]) k = none := by
        intro out hout
        split
        · exact hout
        · rw [dictGet_append, hout]
          simp [dictGet, hk]
      rw [ih _ (hstep acc h)]
      simp [dictGet, hk]

theorem normalize_keys (row : List (String × Json)) (collection : String) :
    (normalize_sdq_trial_row row collection).map Prod.fst = canonicalRowKeys := rfl

/-- **C10.**  The union normalizer agrees with the canonical normalizer
on every canonical key (a raw field whose name collides with a canonical
key never overwrites it), and every raw key outside the canonical set
comes through with its original (first-occurrence) value. -/
theorem c10_normalize_union_agrees (row : List (String × Json)) (collection : String) :
    (∀ k, k ∈ canonicalRowKeys →
      dictGet (normalize_sdq_trial_row_union row collection) k =
        dictGet (normalize_sdq_trial_row row collection) k) ∧
    (∀ k, k ∉ canonicalRowKeys →
      dictGet (normalize_sdq_trial_row_union row collection) k = dictGet row k) := by
  constructor
  · intro k hk
    have hsome : (dictGet (normalize_sdq_trial_row row collection) k).isSome := by
      rw [dictGet_isSome_iff, normalize_keys]
      exact hk
    obtain ⟨v, hv⟩ := Option.isSome_iff_exists.mp hsome
    rw [hv]
    exact unionFold_get_pres row _ k v hv
  · intro k hk
    have hnone : dictGet (normalize_sdq_trial_row row collection) k = none := by
      by_cases hs : (dictGet (normalize_sdq_trial_row row collection) k).isSome
      · rw [dictGet_isSome_iff, normalize_keys] at hs
        exact absurd hs hk
      · exact Option.not_isSome_iff_eq_none.mp hs
    exact unionFold_get_new row _ k hnone

/-- Closed witness for C10 at a concrete raw EU row whose `collection`
key collides with the canonical one and which carries an extra raw
field. -/
theorem c10_normalize_union_agrees_witness :
    dictGet (normalize_sdq_trial_row_union
        [("collection", .str "raw-collision"), ("eudractnumber", .str "2011-001234-11"),
         ("sponsor", .str "Acme")] SDQ_COLLECTION_EU_REGISTER) "collection" =
      dictGet (normalize_sdq_trial_row
        [("collection", .str "raw-collision"), ("eudractnumber", .str "2011-001234-11"),
         ("sponsor", .str "Acme")] SDQ_COLLECTION_EU_REGISTER) "collection" ∧
    dictGet (normalize_sdq_trial_row_union
        [("collection", .str "raw-collision"), ("eudractnumber", .str "2011-001234-11"),
         ("sponsor", .str "Acme")] SDQ_COLLECTION_EU_REGISTER) "sponsor" =
      some (.str "Acme") := by
  constructor
  · exact (c10_normalize_union_agrees _ _).1 "collection" (by decide)
  · have h := (c10_normalize_union_agrees
      [("collection", .str "raw-collision"), ("eudractnumber", .str "2011-001234-11"),
       ("sponsor", .str "Acme")] SDQ_COLLECTION_EU_REGISTER).2 "sponsor" (by decide)
    rw [h]
    decide

/-! ### C8: the schema unifier is a fixed point -/

theorem sorted_mem_ext : ∀ {l1 l2 : List String}, l1.Sorted (· < ·) → l2.Sorted (· < ·) →
    (∀ x, x ∈ l1 ↔ x ∈ l2) → l1 = l2 := by
  intro l1
  induction l1 with
  | nil =>
    intro l2 _ _ hiff
    cases l2 with
    | nil => rfl
    | cons b l2 => exact absurd ((hiff b).mpr (by simp)) (by simp)
  | cons a l1 ih =>
    intro l2 h1 h2 hiff
    cases l2 with
    | nil => exact absurd ((hiff a).mp (by simp)) (by simp)
    | cons b l2 =>
      rcases List.sorted_cons.mp h1 with ⟨ha, h1t⟩
      rcases List.sorted_cons.mp h2 with ⟨hb, h2t⟩
      have hab : a = b := by
        have haim := (hiff a).mp (by simp)
        have hbim := (hiff b).mpr (by simp)
        rcases List.mem_cons.mp haim with h | h
        · exact h
        · rcases List.mem_cons.mp hbim with h2x | h2x
          · exact h2x.symm
          · exact absurd (lt_trans (hb a h) (ha b h2x)) (lt_irrefl b)
      subst hab
      have htail : ∀ x, x ∈ l1 ↔ x ∈ l2 := by
        intro x
        constructor
        · intro hx
          have hm := (hiff x).mp (List.mem_cons_of_mem a hx)
          rcases List.mem_cons.mp hm with h | h
          · subst h; exact absurd (ha x hx) (lt_irrefl x)
          · exact h
        · intro hx
          have hm := (hiff x).mpr (List.mem_cons_of_mem a hx)
          rcases List.mem_cons.mp hm with h | h
          · subst h; exact absurd (hb x hx) (lt_irrefl x)
          · exact h
      rw [ih h1t h2t htail]

theorem sortedSetOf_of_sorted (K : List String) (hK : K.Sorted (· < ·)) :
    sortedSetOf K = K :=
  sorted_mem_ext (sortedSetOf_sorted K) hK (fun x => sortedSetOf_mem)

theorem union_absorb (K xs : List String) (hK : K.Sorted (· < ·))
    (hxs : ∀ x ∈ xs, x ∈ K) : strSetUnion K xs = K := by
  refine sorted_mem_ext (strSetUnion_sorted xs hK) hK ?_
  intro x
  rw [strSetUnion_mem]
  constructor
  · rintro (h | h)
    · exact h
    · exact hxs x h
  · exact Or.inl

theorem fold_union_const (K : List String) (hK : K.Sorted (· < ·)) :
    ∀ (rows : List (List (String × Json))), (∀ r ∈ rows, r.map Prod.fst = K) →
      rows.foldl (fun acc r => strSetUnion acc (r.map Prod.fst)) K = K := by
  intro rows
  induction rows with
  | nil => intro _; rfl
  | cons r rest ih =>
    intro h
    simp only [List.foldl_cons]
    rw [h r (by simp), union_absorb K K hK (fun x hx => hx)]
    exact ih (fun r2 hr2 => h r2 (by simp [hr2]))

theorem mapGet_eval (K : List String) (g : String → Json) (k0 : String) (hk : k0 ∈ K) :
    dictGet (K.map (fun k => (k, g k))) k0 = some (g k0) := by
  induction K with
  | nil => cases hk
  | cons k K ih =>
    by_cases h : k = k0
    · subst h; simp [dictGet]
    · rcases List.mem_cons.mp hk with h2 | h2
      · exact absurd h2.symm h
      · simp [dictGet, h, ih h2]

/-- **C8.**  Schema unification is a fixed point and deterministic:
re-applying `align_rows_to_union_schema` to its own output returns the
identical row list and the identical ordered key list, and equal inputs
always give the same column order. -/
theorem c8_align_fixed_point (rows : List (List (String × Json))) :
    align_rows_to_union_schema (align_rows_to_union_schema rows).1 =
      align_rows_to_union_schema rows ∧
    (∀ rows2, rows2 = rows →
      (align_rows_to_union_schema rows2).2 = (align_rows_to_union_schema rows).2) := by
  refine ⟨?_, fun rows2 h => by rw [h]⟩
  cases rows with
  | nil => rfl
  | cons r0 rest =>
    have hKsorted : ((r0 :: rest).foldl
        (fun acc r => strSetUnion acc (r.map Prod.fst)) []).Sorted (· < ·) :=
      foldl_preserve (fun l : List String => l.Sorted (· < ·)) _ _ _ (by simp)
        (fun a b hab => strSetUnion_sorted _ hab)
    set K := (r0 :: rest).foldl (fun acc r => strSetUnion acc (r.map Prod.fst)) [] with hKdef
    have halign : align_rows_to_union_schema (r0 :: rest) =
        ((r0 :: rest).map (fun r => K.map (fun k => (k, (dictGet r k).getD Json.null))), K) :=
      rfl
    rw [halign]
    have hrowkeys : ∀ r ∈ (r0 :: rest).map
        (fun r => K.map (fun k => (k, (dictGet r k).getD Json.null))),
        r.map Prod.fst = K := by
      intro r hr
      rcases List.mem_map.mp hr with ⟨r1, _, rfl⟩
      simp [Function.comp_def]
    have hKagain : ((r0 :: rest).map
          (fun r => K.map (fun k => (k, (dictGet r k).getD Json.null)))).foldl
        (fun acc r => strSetUnion acc (r.map Prod.fst)) [] = K := by
      simp only [List.map_cons, List.foldl_cons]
      have hhead : strSetUnion []
          ((K.map (fun k => (k, (dictGet r0 k).getD Json.null))).map Prod.fst) = K := by
        have : (K.map (fun k => (k, (dictGet r0 k).getD Json.null))).map Prod.fst = K := by
          simp [Function.comp_def]
        rw [this]
        exact sortedSetOf_of_sorted K hKsorted
      rw [hhead]
      exact fold_union_const K hKsorted _ (fun r hr => by
        rcases List.mem_map.mp hr with ⟨r1, _, rfl⟩
        simp [Function.comp_def])
    have hproj : ∀ r1 : List (String × Json),
        K.map (fun k => (k, (dictGet (K.map (fun k2 => (k2, (dictGet r1 k2).getD Json.null))) k).getD Json.null)) =
        K.map (fun k => (k, (dictGet r1 k).getD Json.null)) := by
      intro r1
      refine List.map_congr_left ?_
      intro k hk
      rw [mapGet_eval K (fun k2 => (dictGet r1 k2).getD Json.null) k hk]
      rfl
    show align_rows_to_union_schema _ = _
    unfold align_rows_to_union_schema
    rw [if_neg (by simp)]
    rw [hKagain]
    refine congrArg (fun x => (x, K)) ?_
    rw [List.map_map]
    refine List.map_congr_left ?_
    intro r1 _
    exact hproj r1

/-- Closed witness for C8 at a concrete two-row input with differing key
sets. -/
theorem c8_align_fixed_point_witness :
    align_rows_to_union_schema (align_rows_to_union_schema
      [[("b", Json.num 1)], [("a", Json.str "x"), ("c", Json.null)]]).1 =
      align_rows_to_union_schema
        [[("b", Json.num 1)], [("a", Json.str "x"), ("c", Json.null)]] ∧
    (align_rows_to_union_schema
      [[("b", Json.num 1)], [("a", Json.str "x"), ("c", Json.null)]]).2 =
      (align_rows_to_union_schema
        [[("b", Json.num 1)], [("a", Json.str "x"), ("c", Json.null)]]).2 := by
  have h := c8_align_fixed_point [[("b", Json.num 1)], [("a", Json.str "x"), ("c", Json.null)]]
  exact ⟨h.1, h.2 _ rfl⟩

/-! ### Shard merge (`scripts/merge_pubchem_trials_shards.py`) -/

/-- Ordered insertion by key (stable) used to sort object keys. -/
def fieldInsert (kv : String × Json) : List (String × Json) → List (String × Json)
  | [] => [kv]
  | kv2 :: rest => if strLt kv.1 kv2.1 then kv :: kv2 :: rest else kv2 :: fieldInsert kv rest

def sortFields : List (String × Json) → List (String × Json)
  | [] => []
  | kv :: rest => fieldInsert kv (sortFields rest)

mutual
/-- Recursively key-sorted canonical form of a JSON value. -/
def Json.canon : Json → Json
  | .null => .null
  | .bool b => .bool b
  | .num n => .num n
  | .str s => .str s
  | .arr items => .arr (canonItems items)
  | .obj fields => .obj (sortFields (canonFields fields))

def canonItems : List Json → List Json
  | [] => []
  | x :: xs => x.canon :: canonItems xs

def canonFields : List (String × Json) → List (String × Json)
  | [] => []
  | (k, v) :: rest => (k, v.canon) :: canonFields rest
end

/-- `_row_signature`: `json.dumps(row, ensure_ascii=False, sort_keys=True,
separators=(",", ":"))`.  Compact canonical serialization is injective on
key-sorted values, so the signature is modelled by the recursively
key-sorted value itself. -/
def row_signature (row : List (String × Json)) : Json := Json.canon (.obj row)

/-- The dedup loop of `main`: keep a row when its signature is new, in
shard order. -/
def mergeDedupAux : List (List (String × Json)) → List Json → List (List (String × Json))
  | [], _ => []
  | r :: rest, seen =>
    if row_signature r ∈ seen then mergeDedupAux rest seen
    else r :: mergeDedupAux rest (row_signature r :: seen)

/-- Shard merge: concatenate shards in order, dedup by signature; also
reports `n_input_rows` (every row read). -/
def merge_shards (shards : List (List (List (String × Json)))) :
    List (List (String × Json)) × Nat :=
  (mergeDedupAux shards.join [], (shards.map List.length).sum)

theorem mergeDedupAux_all_seen (B : List (List (String × Json))) (seen : List Json)
    (h : ∀ r ∈ B, row_signature r ∈ seen) : mergeDedupAux B seen = [] := by
  induction B generalizing seen with
  | nil => rfl
  | cons r rest ih =>
    rw [mergeDedupAux, if_pos (h r (by simp))]
    exact ih seen (fun r2 hr2 => h r2 (by simp [hr2]))

theorem mergeDedupAux_all_new (A B : List (List (String × Json))) (seen : List Json)
    (hA : (A.map row_signature).Nodup)
    (hseen : ∀ s ∈ A.map row_signature, s ∉ seen) :
    mergeDedupAux (A ++ B) seen =
      A ++ mergeDedupAux B ((A.map row_signature).reverse ++ seen) := by
  induction A generalizing seen with
  | nil => simp
  | cons r A ih =>
    have hnotin : row_signature r ∉ seen := hseen _ (by simp)
    rw [List.cons_append, mergeDedupAux, if_neg hnotin]
    have hA1 : row_signature r ∉ A.map row_signature ∧ (A.map row_signature).Nodup := by
      rw [List.map_cons, List.nodup_cons] at hA
      exact hA
    obtain ⟨hrA, hA2⟩ := hA1
    have hseen2 : ∀ s ∈ A.map row_signature, s ∉ row_signature r :: seen := by
      intro s hs
      simp only [List.mem_cons]
      rintro (h | h)
      · exact hrA (h ▸ hs)
      · exact hseen s (by simp [hs]) h
    rw [ih (row_signature r :: seen) hA2 hseen2]
    simp

/-- **C7 (amended).**  When shard A contains no duplicate rows by
signature, merging it with a shard B all of whose rows already occur in
A by signature yields exactly A's rows, and `n_input_rows` is
`len(A) + len(B)`.  (Without the no-duplicates condition on A the
unamended claim is false; see the counterexample.) -/
theorem c7_merge_dedup_amended (A B : List (List (String × Json)))
    (hA : (A.map row_signature).Nodup)
    (hB : ∀ r ∈ B, row_signature r ∈ A.map row_signature) :
    (merge_shards [A, B]).1 = A ∧ (merge_shards [A, B]).2 = A.length + B.length := by
  constructor
  · show mergeDedupAux ([A, B] : List _).join [] = A
    have hjoin : ([A, B] : List (List (List (String × Json)))).join = A ++ B := by simp
    rw [hjoin, mergeDedupAux_all_new A B [] hA (by simp)]
    rw [mergeDedupAux_all_seen B _ (fun r hr => by
      simp only [List.append_nil, List.mem_reverse]
      exact hB r hr)]
    simp
  · show (([A, B] : List _).map List.length).sum = A.length + B.length
    simp

/-- Closed witness for the amended C7: A = `[rowA, rowB]` (duplicate
free), B = `[rowA]`. -/
def c7rowA : List (String × Json) := [("id", .str "NCT00000001")]

def c7rowB : List (String × Json) := [("id", .str "NCT00000002")]

theorem c7_merge_dedup_amended_witness :
    (merge_shards [[c7rowA, c7rowB], [c7rowA]]).1 = [c7rowA, c7rowB] ∧
    (merge_shards [[c7rowA, c7rowB], [c7rowA]]).2 = 2 + 1 := by
  have h := c7_merge_dedup_amended [c7rowA, c7rowB] [c7rowA] (by decide) (by decide)
  exact ⟨h.1, h.2⟩

/-- **C7 (counterexample).**  Shard A = `[rowA, rowA, rowB]` (with an
internal duplicate), shard B = `[rowA]`.  B's signatures are a strict
subset of A's, yet the merge emits 2 rows, not `len(A) = 3`
(`n_input_rows = 4` still holds). -/
theorem c7_counterexample :
    (∀ r ∈ [c7rowA], row_signature r ∈ ([c7rowA, c7rowA, c7rowB].map row_signature)) ∧
    row_signature c7rowB ∉ ([c7rowA].map row_signature) ∧
    (merge_shards [[c7rowA, c7rowA, c7rowB], [c7rowA]]).1.length = 2 ∧
    ([c7rowA, c7rowA, c7rowB] : List _).length = 3 ∧
    (merge_shards [[c7rowA, c7rowA, c7rowB], [c7rowA]]).2 = 4 := by
  refine ⟨?_, ?_, ?_, ?_, ?_⟩ <;> decide

/-! ### Streaming collection (`pipeline/collect_ctgov_docs_service.py`)

Model of the per-CID document loop of `collect_ctgov_docs` in a fresh
run (`resume=False`): the CID→NCT resolution results arrive as an input
list (one entry per CID, in enumeration order), the registry is a pure
`getStudy` function, and the state tracks the in-run cache, the seen-ID
set, the fetch counters and the rows appended to `studies.jsonl`.  The
links/compounds/CSV side writes do not interact with the fetch limit and
are out of this model's scope. -/

/-- Python dict assignment `d[k] = v`: overwrite in place, else append. -/
def dictSet : List (String × Json) → String → Json → List (String × Json)
  | [], k, v => [(k, v)]
  | (k2, v2) :: rest, k, v =>
    if k2 = k then (k2, v) :: rest else (k2, v2) :: dictSet rest k v

def jsonFieldsOf : Json → List (String × Json)
  | .obj fields => fields
  | _ => []

/-- `out_study = dict(study_obj); out_study["cid"] = cid` (study
documents are JSON objects). -/
def tagStudyWithCid (doc : Json) (cid : Nat) : Json :=
  .obj (dictSet (jsonFieldsOf doc) "cid" (.num cid))

structure CollectState where
  studyCache : List (String × Json)
  existingNcts : List String
  nctRequested : Nat
  nctFetched : Nat
  studiesRows : List Json
deriving DecidableEq

def initialCollectState : CollectState := ⟨[], [], 0, 0, []⟩

/-- The `for nct in nct_ids` loop body: cached documents are re-written
tagged with the current CID; an uncached ID triggers a fetch unless the
global limit is reached, in which case the loop over this CID's IDs
`break`s. -/
def processCidNcts (getStudy : String → Json) (fetchLimit : Nat) (cid : Nat) :
    List String → CollectState → CollectState
  | [], st => st
  | nct :: rest, st =>
    match dictGet st.studyCache nct with
    | none =>
      if nct ∉ st.existingNcts then
        if fetchLimit ≤ st.nctRequested then st
        else
          let doc := getStudy nct
          processCidNcts getStudy fetchLimit cid rest
            ⟨dictSet st.studyCache nct doc, st.existingNcts ++ [nct],
             st.nctRequested + 1, st.nctFetched + 1,
             st.studiesRows ++ [tagStudyWithCid doc cid]⟩
      else processCidNcts getStudy fetchLimit cid rest st
    | some doc =>
      processCidNcts getStudy fetchLimit cid rest
        ⟨st.studyCache, st.existingNcts, st.nctRequested, st.nctFetched,
         st.studiesRows ++ [tagStudyWithCid doc cid]⟩

/-- The outer streaming loop over CIDs (with their resolved trial IDs). -/
def collect_docs_stream (getStudy : String → Json) (fetchLimit : Nat) :
    List (Nat × List String) → CollectState → CollectState
  | [], st => st
  | (cid, nctIds) :: rest, st =>
    collect_docs_stream getStudy fetchLimit rest (processCidNcts getStudy fetchLimit cid nctIds st)

/-- An ID that would need a registry fetch: not in the cache and not in
the seen set. -/
def needsFetch (st : CollectState) (n : String) : Bool :=
  (dictGet st.studyCache n).isNone && n ∉ st.existingNcts

/-- The CID-tagged rows written from the cache alone: the cached IDs in
the prefix of the list before the first ID needing a fetch. -/
def cachedWrites (st : CollectState) (cid : Nat) (ids : List String) : List Json :=
  (ids.takeWhile (fun n => !(needsFetch st n))).filterMap
    (fun n => (dictGet st.studyCache n).map (fun d => tagStudyWithCid d cid))

theorem processCidNcts_requested_le (getStudy : String → Json) (fetchLimit : Nat) (cid : Nat)
    (ids : List String) (st : CollectState) (h : st.nctRequested ≤ fetchLimit) :
    (processCidNcts getStudy fetchLimit cid ids st).nctRequested ≤ fetchLimit := by
  induction ids generalizing st with
  | nil => exact h
  | cons nct rest ih =>
    rw [processCidNcts]
    cases hc : dictGet st.studyCache nct with
    | none =>
      dsimp only
      split
      · split
        · exact h
        · next hlim =>
          refine ih _ ?_
          show st.nctRequested + 1 ≤ fetchLimit
          omega
      · exact ih _ h
    | some doc => exact ih _ h

/-- `cachedWrites` only reads the cache and the seen set. -/
theorem cachedWrites_rows_irrelevant (sc : List (String × Json)) (ex : List String)
    (rq fe rq2 fe2 : Nat) (rows rows2 : List Json) (cid : Nat) (ids : List String) :
    cachedWrites ⟨sc, ex, rq2, fe2, rows2⟩ cid ids =
      cachedWrites ⟨sc, ex, rq, fe, rows⟩ cid ids := rfl

/-- Once the limit is reached, processing a CID performs no fetch and
appends exactly the cached rows up to the first ID needing a fetch. -/
theorem processCidNcts_after_limit (getStudy : String → Json) (fetchLimit : Nat) (cid : Nat)
    (ids : List String) : ∀ (st : CollectState), fetchLimit ≤ st.nctRequested →
    processCidNcts getStudy fetchLimit cid ids st =
      ⟨st.studyCache, st.existingNcts, st.nctRequested, st.nctFetched,
       st.studiesRows ++ cachedWrites st cid ids⟩ := by
  induction ids with
  | nil =>
    rintro ⟨sc, ex, rq, fe, rows⟩ h
    simp [processCidNcts, cachedWrites, List.takeWhile]
  | cons nct rest ih =>
    rintro ⟨sc, ex, rq, fe, rows⟩ h
    rw [processCidNcts]
    dsimp only
    cases hc : dictGet sc nct with
    | none =>
      by_cases hmem : nct ∈ ex
      · rw [if_neg (by simpa using hmem)]
        rw [ih _ h]
        have hskip : cachedWrites ⟨sc, ex, rq, fe, rows⟩ cid (nct :: rest) =
            cachedWrites ⟨sc, ex, rq, fe, rows⟩ cid rest := by
          unfold cachedWrites needsFetch
          rw [List.takeWhile_cons]
          simp [hc, hmem]
        rw [hskip]
      · rw [if_pos (by simpa using hmem), if_pos h]
        have hstop : cachedWrites ⟨sc, ex, rq, fe, rows⟩ cid (nct :: rest) = [] := by
          unfold cachedWrites needsFetch
          rw [List.takeWhile_cons]
          simp [hc, hmem]
        rw [hstop]
        simp
    | some doc =>
      dsimp only
      rw [ih ⟨sc, ex, rq, fe, rows ++ [tagStudyWithCid doc cid]⟩ h]
      rw [cachedWrites_rows_irrelevant sc ex rq fe rq fe rows
        (rows ++ [tagStudyWithCid doc cid]) cid rest]
      have hkeep : cachedWrites ⟨sc, ex, rq, fe, rows⟩ cid (nct :: rest) =
          tagStudyWithCid doc cid :: cachedWrites ⟨sc, ex, rq, fe, rows⟩ cid rest := by
        unfold cachedWrites needsFetch
        rw [List.takeWhile_cons]
        simp [hc]
      rw [hkeep]
      simp

/-- **C5 (amended).**  The fetch counter never exceeds the global limit
(no further documents are fetched once it is reached); but once the
limit has been reached, a subsequent CID's cached trial IDs are written
only up to the first trial ID that would need a fetch — the per-CID loop
breaks there, so cached IDs after that point are skipped.  (The
unamended claim — every cached ID of every subsequent CID is written —
is false; see the counterexample.) -/
theorem c5_stream_limit_amended (getStudy : String → Json) (fetchLimit : Nat) :
    (∀ (cidMap : List (Nat × List String)) (st : CollectState),
      st.nctRequested ≤ fetchLimit →
      (collect_docs_stream getStudy fetchLimit cidMap st).nctRequested ≤ fetchLimit) ∧
    (∀ (cid : Nat) (ids : List String) (st : CollectState),
      fetchLimit ≤ st.nctRequested →
      processCidNcts getStudy fetchLimit cid ids st =
        ⟨st.studyCache, st.existingNcts, st.nctRequested, st.nctFetched,
         st.studiesRows ++ cachedWrites st cid ids⟩) := by
  constructor
  · intro cidMap
    induction cidMap with
    | nil => intro st h; exact h
    | cons p rest ih =>
      intro st h
      obtain ⟨cid, ids⟩ := p
      exact ih _ (processCidNcts_requested_le getStudy fetchLimit cid ids st h)
  · intro cid ids st h
    exact processCidNcts_after_limit getStudy fetchLimit cid ids st h

def c5GetStudy : String → Json := fun n =>
  .obj [("protocolSection", .obj [("identificationModule", .obj [("nctId", .str n)])])]

def c5Input : List (Nat × List String) :=
  [(1, ["NCT00000002"]), (2, ["NCT00000001", "NCT00000002"])]

/-- **C5 (counterexample).**  With a fetch limit of 1, CID 1 fetches
`NCT00000002` (limit reached); CID 2 references `NCT00000001` (uncached)
and then `NCT00000002` (cached).  The per-CID loop breaks at the
uncached ID, so the cached `NCT00000002` row is never written for
CID 2 — refuting the claim that every cached trial ID still has its
CID-tagged row written for subsequent CIDs. -/
theorem c5_counterexample :
    ((2 : Nat), ["NCT00000001", "NCT00000002"]) ∈ c5Input ∧
    (dictGet (collect_docs_stream c5GetStudy 1 c5Input initialCollectState).studyCache
      "NCT00000002").isSome = true ∧
    (collect_docs_stream c5GetStudy 1 c5Input initialCollectState).studiesRows.length = 1 ∧
    (∀ row ∈ (collect_docs_stream c5GetStudy 1 c5Input initialCollectState).studiesRows,
      jGet row "cid" ≠ some (.num 2)) := by
  refine ⟨?_, ?_, ?_, ?_⟩ <;> decide

/-- Closed witness for the amended C5 at the counterexample input. -/
theorem c5_stream_limit_amended_witness :
    (collect_docs_stream c5GetStudy 1 c5Input initialCollectState).nctRequested ≤ 1 ∧
    processCidNcts c5GetStudy 1 2 ["NCT00000001", "NCT00000002"]
        (processCidNcts c5GetStudy 1 1 ["NCT00000002"] initialCollectState) =
      (let st := processCidNcts c5GetStudy 1 1 ["NCT00000002"] initialCollectState
       ⟨st.studyCache, st.existingNcts, st.nctRequested, st.nctFetched,
        st.studiesRows ++ cachedWrites st 2 ["NCT00000001", "NCT00000002"]⟩) := by
  constructor
  · exact (c5_stream_limit_amended c5GetStudy 1).1 c5Input initialCollectState (by decide)
  · exact (c5_stream_limit_amended c5GetStudy 1).2 2 ["NCT00000001", "NCT00000002"] _
      (by decide)

/-! ### History tracker (`scripts/update_pubchem_trials_history.py`)

The filesystem state is the previously recorded checksum (the state
file's `latest_checksum`, absent on the first run), whether the latest
copy exists, and the timestamps embedded in the snapshot filenames.
Timestamps are modelled as integral seconds (the `--timestamp` ISO
token, which also names the snapshot file). -/

/-- Models `hashlib.sha256(...).hexdigest()`: injective on contents
(standard collision-freeness assumption), represented by the content
itself. -/
def sha256Hex (content : String) : String := content

structure HistoryState where
  prevChecksum : Option String
  latestExists : Bool
  snapshots : List Int
deriving DecidableEq

structure HistoryRunOutcome where
  changed : Bool
  historyCount : Nat
  state : HistoryState
deriving DecidableEq

def secondsPerDay : Int := 86400

/-- One run of `main`: change detection against the recorded checksum,
copy to the latest path, snapshot (always, or only on change with
`--snapshot-on-change`; a same-timestamp snapshot is overwritten),
retention pruning (skipped for a negative retention), recount, state
rewrite. -/
def history_run (content : String) (ts : Int) (snapshotOnChange : Bool)
    (retentionDays : Int) (st : HistoryState) : HistoryRunOutcome :=
  let newChecksum := sha256Hex content
  let changed := !st.latestExists || decide (some newChecksum ≠ st.prevChecksum)
  let shouldSnapshot := if snapshotOnChange then changed else true
  let snaps1 :=
    if shouldSnapshot then
      (if ts ∈ st.snapshots then st.snapshots else st.snapshots ++ [ts])
    else st.snapshots
  let snaps2 :=
    if retentionDays < 0 then snaps1
    else snaps1.filter (fun s => !(decide (s < ts - retentionDays * secondsPerDay)))
  ⟨changed, snaps2.length, ⟨some newChecksum, true, snaps2⟩⟩

/-- **C6.**  From a blank state, the first run reports `changed=true`; a
second run on byte-identical content reports `changed=false`, leaving
`history_count` unchanged when `--snapshot-on-change` is set and
incrementing it otherwise; a third run on modified content reports
`changed=true` again.  (Retention pruning disabled; the second run's
timestamp is fresh, as `_now_utc_iso` guarantees.) -/
theorem c6_history_tracker (c c2 : String) (ts1 ts2 ts3 : Int) (son : Bool)
    (retention : Int) (hret : retention < 0) (hts : ts2 ≠ ts1) (hc : c2 ≠ c) :
    (history_run c ts1 son retention ⟨none, false, []⟩).changed = true ∧
    (history_run c ts2 son retention
      (history_run c ts1 son retention ⟨none, false, []⟩).state).changed = false ∧
    (son = true →
      (history_run c ts2 son retention
        (history_run c ts1 son retention ⟨none, false, []⟩).state).historyCount =
      (history_run c ts1 son retention ⟨none, false, []⟩).historyCount) ∧
    (son = false →
      (history_run c ts2 son retention
        (history_run c ts1 son retention ⟨none, false, []⟩).state).historyCount =
      (history_run c ts1 son retention ⟨none, false, []⟩).historyCount + 1) ∧
    (history_run c2 ts3 son retention
      (history_run c ts2 son retention
        (history_run c ts1 son retention ⟨none, false, []⟩).state).state).changed = true := by
  cases son with
  | false =>
    have e1 : history_run c ts1 false retention ⟨none, false, []⟩ =
        ⟨true, 1, ⟨some c, true, [ts1]⟩⟩ := by
      simp [history_run, sha256Hex, hret]
    have e2 : history_run c ts2 false retention ⟨some c, true, [ts1]⟩ =
        ⟨false, 2, ⟨some c, true, [ts1, ts2]⟩⟩ := by
      simp [history_run, sha256Hex, hret, hts]
    have e3 : (history_run c2 ts3 false retention ⟨some c, true, [ts1, ts2]⟩).changed = true := by
      simp [history_run, sha256Hex, hc]
    rw [e1, e2]
    exact ⟨rfl, rfl, by intro h; exact absurd h (by simp), fun _ => rfl, e3⟩
  | true =>
    have e1 : history_run c ts1 true retention ⟨none, false, []⟩ =
        ⟨true, 1, ⟨some c, true, [ts1]⟩⟩ := by
      simp [history_run, sha256Hex, hret]
    have e2 : history_run c ts2 true retention ⟨some c, true, [ts1]⟩ =
        ⟨false, 1, ⟨some c, true, [ts1]⟩⟩ := by
      simp [history_run, sha256Hex, hret]
    have e3 : (history_run c2 ts3 true retention ⟨some c, true, [ts1]⟩).changed = true := by
      simp [history_run, sha256Hex, hc]
    rw [e1, e2]
    exact ⟨rfl, rfl, fun _ => rfl, by intro h; exact absurd h (by simp), e3⟩

/-- Closed witness for C6 (both flag settings, concrete contents and
timestamps). -/
theorem c6_history_tracker_witness :
    (history_run "[1]" 0 true (-1) ⟨none, false, []⟩).changed = true ∧
    (history_run "[1]" 3600 true (-1)
      (history_run "[1]" 0 true (-1) ⟨none, false, []⟩).state).changed = false ∧
    (history_run "[1]" 3600 false (-1)
      (history_run "[1]" 0 false (-1) ⟨none, false, []⟩).state).historyCount =
      (history_run "[1]" 0 false (-1) ⟨none, false, []⟩).historyCount + 1 := by
  have ht := c6_history_tracker "[1]" "[1,2]" 0 3600 7200 true (-1) (by decide) (by decide)
    (by decide)
  have hf := c6_history_tracker "[1]" "[1,2]" 0 3600 7200 false (-1) (by decide) (by decide)
    (by decide)
  exact ⟨ht.1, ht.2.1, hf.2.2.2.1 rfl⟩

/-! ### Per-CID mapping record (`pipeline/cid_to_nct.py`)

`map_cid_to_nct_record`'s upstream calls are modelled as `Except String`
values whose `.error` payload stands for the raised exception's
`type:message` rendering; `.error` of the whole function models the
exception propagating to the caller.  The config keeps the three flags
the control flow reads; the remaining dataclass fields only parameterize
the concrete clients abstracted by the upstream record. -/

structure CidToNctConfig where
  include_compound_props : Bool
  use_ctgov_fallback : Bool
  fail_fast : Bool
deriving DecidableEq

structure MapUpstream where
  pugViewResolve : Except String (List String × String)
  linkerResults : Except String (List LinkResult)
  compoundProps : Except String (List (String × Json))

structure LinkRow where
  cid : Nat
  nct_ids : List String
  n_nct : Nat
  source : String
  error : Option String
deriving DecidableEq

structure CompoundRow where
  cid : Nat
  inchikey : Option Json
  canonical_smiles : Option Json
  iupac_name : Option Json
  error : Option String
deriving DecidableEq

structure MapRecord where
  link : LinkRow
  compound : Option CompoundRow
deriving DecidableEq

def ctgovFallbackLabel : String := "CTGov term-link fallback (no PUG-View NCT IDs)"

/-- The PUG-View resolution try-block: on an exception, re-raise under
`fail_fast`, otherwise keep the defaults and record the error string. -/
def mapStep1 (cfg : CidToNctConfig) (u : MapUpstream) :
    Except String (List String × String × Option String) :=
  match u.pugViewResolve with
  | .ok (ids, src) => .ok (ids, src, none)
  | .error e =>
    if cfg.fail_fast then .error e
    else .ok ([], pugViewAnnotationsLabel, some ("pug_view_error:" ++ e))

/-- The CTGov fuzzy-linker fallback try-block, entered only when no IDs
were resolved and the fallback is configured. -/
def mapStep2 (cfg : CidToNctConfig) (u : MapUpstream)
    (t : List String × String × Option String) :
    Except String (List String × String × Option String) :=
  if t.1.isEmpty && cfg.use_ctgov_fallback then
    match u.linkerResults with
    | .ok linkResults =>
      let ids := sortedSetOf (linkResults.map LinkResult.nct_id)
      if ids.isEmpty then .ok (ids, t.2.1, t.2.2)
      else .ok (ids, ctgovFallbackLabel, t.2.2)
    | .error e =>
      if cfg.fail_fast then .error e
      else
        .ok (t.1, t.2.1,
          some (match t.2.2 with
                | some e0 => e0 ++ "|" ++ ("ctgov_fallback_error:" ++ e)
                | none => "ctgov_fallback_error:" ++ e))
  else .ok t

/-- Row assembly and the compound-properties try-block. -/
def mapFinish (cfg : CidToNctConfig) (u : MapUpstream) (cid : Nat)
    (t : List String × String × Option String) : Except String MapRecord :=
  let linkRow : LinkRow := ⟨cid, t.1, t.1.length, t.2.1, t.2.2⟩
  if cfg.include_compound_props then
    match u.compoundProps with
    | .ok props =>
      .ok ⟨linkRow, some ⟨cid, dictGet props "InChIKey", dictGet props "CanonicalSMILES",
        dictGet props "IUPACName", none⟩⟩
    | .error e =>
      if cfg.fail_fast then .error e
      else .ok ⟨linkRow, some ⟨cid, none, none, none,
        some ("compound_props_error:" ++ e)⟩⟩
  else .ok ⟨linkRow, none⟩

/-- `map_cid_to_nct_record`: the three try-blocks in sequence; an
`.error` result models the exception propagating to the caller. -/
def map_cid_to_nct_record (cfg : CidToNctConfig) (u : MapUpstream) (cid : Nat) :
    Except String MapRecord :=
  match mapStep1 cfg u with
  | .error e => .error e
  | .ok t1 =>
    match mapStep2 cfg u t1 with
    | .error e => .error e
    | .ok t2 => mapFinish cfg u cid t2

theorem mapStep1_ok (cfg : CidToNctConfig) (u : MapUpstream)
    (hff : cfg.fail_fast = false) : ∃ t, mapStep1 cfg u = .ok t := by
  unfold mapStep1
  cases u.pugViewResolve with
  | ok pr => exact ⟨_, rfl⟩
  | error e =>
    rw [hff]
    exact ⟨_, rfl⟩

theorem mapStep2_ok (cfg : CidToNctConfig) (u : MapUpstream)
    (t : List String × String × Option String) (hff : cfg.fail_fast = false) :
    ∃ t2, mapStep2 cfg u t = .ok t2 := by
  unfold mapStep2
  split
  · cases u.linkerResults with
    | ok lrs =>
      dsimp only
      split
      · exact ⟨_, rfl⟩
      · exact ⟨_, rfl⟩
    | error e =>
      rw [hff]
      exact ⟨_, rfl⟩
  · exact ⟨_, rfl⟩

theorem mapFinish_ok (cfg : CidToNctConfig) (u : MapUpstream) (cid : Nat)
    (t : List String × String × Option String) (hff : cfg.fail_fast = false) :
    ∃ rec, mapFinish cfg u cid t = .ok rec := by
  unfold mapFinish
  split
  · cases u.compoundProps with
    | ok props => exact ⟨_, rfl⟩
    | error e =>
      rw [hff]
      exact ⟨_, rfl⟩
  · exact ⟨_, rfl⟩

/-- **C9.**  With `fail_fast=False` the mapper never raises: every
upstream failure (PUG-View resolution, CTGov fallback linking,
compound-property fetch) is captured as a string `error` field alongside
empty/partial output in the returned records; with `fail_fast=True` the
same exception propagates to the caller. -/
theorem c9_map_record_error_handling (cfg : CidToNctConfig) (u : MapUpstream) (cid : Nat) :
    (cfg.fail_fast = false → ∃ rec, map_cid_to_nct_record cfg u cid = .ok rec) ∧
    (∀ e, cfg.fail_fast = false → cfg.use_ctgov_fallback = false →
      u.pugViewResolve = .error e →
      ∃ rec, map_cid_to_nct_record cfg u cid = .ok rec ∧
        rec.link.error = some ("pug_view_error:" ++ e) ∧ rec.link.nct_ids = []) ∧
    (∀ e e2, cfg.fail_fast = false → cfg.use_ctgov_fallback = true →
      u.pugViewResolve = .error e → u.linkerResults = .error e2 →
      ∃ rec, map_cid_to_nct_record cfg u cid = .ok rec ∧
        rec.link.error =
          some ("pug_view_error:" ++ e ++ "|" ++ ("ctgov_fallback_error:" ++ e2)) ∧
        rec.link.nct_ids = []) ∧
    (∀ e, cfg.fail_fast = false → cfg.include_compound_props = true →
      u.compoundProps = .error e →
      ∃ rec, map_cid_to_nct_record cfg u cid = .ok rec ∧
        rec.compound = some ⟨cid, none, none, none, some ("compound_props_error:" ++ e)⟩) ∧
    (∀ e, cfg.fail_fast = true → u.pugViewResolve = .error e →
      map_cid_to_nct_record cfg u cid = .error e) ∧
    (∀ ids0 src0 e2, cfg.fail_fast = true → cfg.use_ctgov_fallback = true →
      u.pugViewResolve = .ok (ids0, src0) → ids0 = [] → u.linkerResults = .error e2 →
      map_cid_to_nct_record cfg u cid = .error e2) ∧
    (∀ ids0 src0 e3, cfg.fail_fast = true → cfg.include_compound_props = true →
      cfg.use_ctgov_fallback = false → u.pugViewResolve = .ok (ids0, src0) →
      u.compoundProps = .error e3 →
      map_cid_to_nct_record cfg u cid = .error e3) := by
  refine ⟨?_, ?_, ?_, ?_, ?_, ?_, ?_⟩
  · intro hff
    obtain ⟨t1, h1⟩ := mapStep1_ok cfg u hff
    obtain ⟨t2, h2⟩ := mapStep2_ok cfg u t1 hff
    obtain ⟨rec, h3⟩ := mapFinish_ok cfg u cid t2 hff
    refine ⟨rec, ?_⟩
    unfold map_cid_to_nct_record
    rw [h1]
    dsimp only
    rw [h2]
    exact h3
  · intro e hff hcf hpug
    have h1 : mapStep1 cfg u =
        .ok ([], pugViewAnnotationsLabel, some ("pug_view_error:" ++ e)) := by
      unfold mapStep1
      rw [hpug, hff]
      rfl
    have h2 : mapStep2 cfg u ([], pugViewAnnotationsLabel, some ("pug_view_error:" ++ e)) =
        .ok ([], pugViewAnnotationsLabel, some ("pug_view_error:" ++ e)) := by
      unfold mapStep2
      rw [hcf]
      rfl
    unfold map_cid_to_nct_record
    rw [h1]
    dsimp only
    rw [h2]
    dsimp only
    unfold mapFinish
    split
    · cases u.compoundProps with
      | ok props => exact ⟨_, rfl, rfl, rfl⟩
      | error e3 =>
        rw [hff]
        exact ⟨_, rfl, rfl, rfl⟩
    · exact ⟨_, rfl, rfl, rfl⟩
  · intro e e2 hff hcf hpug hlink
    have h1 : mapStep1 cfg u =
        .ok ([], pugViewAnnotationsLabel, some ("pug_view_error:" ++ e)) := by
      unfold mapStep1
      rw [hpug, hff]
      rfl
    have h2 : mapStep2 cfg u ([], pugViewAnnotationsLabel, some ("pug_view_error:" ++ e)) =
        .ok ([], pugViewAnnotationsLabel,
          some ("pug_view_error:" ++ e ++ "|" ++ ("ctgov_fallback_error:" ++ e2))) := by
      unfold mapStep2
      rw [hcf, hlink, hff]
      rfl
    unfold map_cid_to_nct_record
    rw [h1]
    dsimp only
    rw [h2]
    dsimp only
    unfold mapFinish
    split
    · cases u.compoundProps with
      | ok props => exact ⟨_, rfl, rfl, rfl⟩
      | error e3 =>
        rw [hff]
        exact ⟨_, rfl, rfl, rfl⟩
    · exact ⟨_, rfl, rfl, rfl⟩
  · intro e hff hicp hprops
    obtain ⟨t1, h1⟩ := mapStep1_ok cfg u hff
    obtain ⟨t2, h2⟩ := mapStep2_ok cfg u t1 hff
    unfold map_cid_to_nct_record
    rw [h1]
    dsimp only
    rw [h2]
    dsimp only
    unfold mapFinish
    rw [hicp, hprops, hff]
    exact ⟨_, rfl, rfl⟩
  · intro e hff hpug
    have h1 : mapStep1 cfg u = .error e := by
      unfold mapStep1
      rw [hpug, hff]
      rfl
    unfold map_cid_to_nct_record
    rw [h1]
  · intro ids0 src0 e2 hff hcf hpug hids0 hlink
    subst hids0
    have h1 : mapStep1 cfg u = .ok ([], src0, none) := by
      unfold mapStep1
      rw [hpug]
    have h2 : mapStep2 cfg u ([], src0, none) = .error e2 := by
      unfold mapStep2
      rw [hcf, hlink, hff]
      rfl
    unfold map_cid_to_nct_record
    rw [h1]
    dsimp only
    rw [h2]
  · intro ids0 src0 e3 hff hicp hcf hpug hprops
    have h1 : mapStep1 cfg u = .ok (ids0, src0, none) := by
      unfold mapStep1
      rw [hpug]
    have h2 : mapStep2 cfg u (ids0, src0, none) = .ok (ids0, src0, none) := by
      unfold mapStep2
      rw [hcf]
      simp
    have h3 : mapFinish cfg u cid (ids0, src0, none) = .error e3 := by
      unfold mapFinish
      rw [hicp, hprops, hff]
      rfl
    unfold map_cid_to_nct_record
    rw [h1]
    dsimp only
    rw [h2]
    dsimp only
    exact h3

/-- Closed witness for C9: an upstream where everything raises, in
non-fail-fast and fail-fast modes. -/
def c9AllErr : MapUpstream := ⟨.error "boom1", .error "boom2", .error "boom3"⟩

theorem c9_map_record_error_handling_witness :
    (∃ rec, map_cid_to_nct_record ⟨true, true, false⟩ c9AllErr 7 = .ok rec) ∧
    map_cid_to_nct_record ⟨true, true, true⟩ c9AllErr 7 = .error "boom1" := by
  have h := c9_map_record_error_handling ⟨true, true, false⟩ c9AllErr 7
  have h2 := c9_map_record_error_handling ⟨true, true, true⟩ c9AllErr 7
  have hp : c9AllErr.pugViewResolve = Except.error "boom1" := rfl
  exact ⟨h.1 rfl, h2.2.2.2.2.1 "boom1" rfl hp⟩

end ClinicalData
